import Mathlib

/-!
Verification of the PII Extraction & Spatial Masking Engine
(`src/services/image-service.js` and friends) against its specification.

The JavaScript source is shallowly embedded: strings are `List Char`,
pixel coordinates are `Int`, JS `null`-able fields are `Option`, and the
imperative extraction pipeline is explicit state passing over a
`PII × List Region` pair.  Regex scans are translated to explicit
left-to-right character scanners with the same boundary (`\b`) and
greediness semantics as the source patterns.
-/

namespace PIIDetect

/-- A JS string is modelled as its list of characters. -/
abbrev Str := List Char

/-- Characters matched by the JS `\s` class (the forms that occur here). -/
def isWs (c : Char) : Bool :=
  c = ' ' || c = '\t' || c = '\n' || c = '\r'

/-- Characters matched by the JS `\w` class: ASCII letters, digits, underscore. -/
def isWordCh (c : Char) : Bool :=
  c.isAlpha || c.isDigit || c = '_'

/-- `String.prototype.toLowerCase` restricted to the ASCII range that the
source texts use (Devanagari has no case and is left unchanged). -/
def lowerStr (s : Str) : Str := s.map Char.toLower

/-- `needle.isPrefixOf hay` for character lists. -/
def isPrefixB : Str → Str → Bool
  | [], _ => true
  | _ :: _, [] => false
  | a :: as, b :: bs => a = b && isPrefixB as bs

/-- JS `hay.includes(pat)`: `pat` occurs contiguously inside `hay`. -/
def hasInfix (hay pat : Str) : Bool :=
  match hay with
  | [] => pat.isEmpty
  | c :: t => isPrefixB pat (c :: t) || hasInfix t pat

/-- JS `String.prototype.trim`. -/
def jsTrim (s : Str) : Str :=
  ((s.dropWhile isWs).reverse.dropWhile isWs).reverse

theorem dropWhileLenLe (p : Char → Bool) :
    ∀ l : List Char, (l.dropWhile p).length ≤ l.length := by
  intro l
  induction l with
  | nil => simp
  | cons c t ih =>
    by_cases h : p c
    · simpa [List.dropWhile, h] using Nat.le_succ_of_le ih
    · simp [List.dropWhile, h]

/-- Accumulator pass of `jsSplitWs`: `acc` is the current piece reversed,
`skipWs` records that the previous character was part of a whitespace
separator run (so further whitespace extends that run rather than
starting a new empty piece). -/
def splitWsGo : Str → Str → Bool → List Str
  | [], acc, _ => [acc.reverse]
  | c :: cs, acc, skipWs =>
    if isWs c then
      if skipWs then splitWsGo cs acc true
      else acc.reverse :: splitWsGo cs [] true
    else splitWsGo cs (c :: acc) false

/-- JS `s.split(/\s+/)`: splits on maximal whitespace runs, keeping the
empty pieces that JS produces at a leading or trailing separator. -/
def jsSplitWs (s : Str) : List Str :=
  splitWsGo s [] false

/-- Word-level bounding box as supplied by the OCR stage. -/
structure BBox where
  x0 : Int
  y0 : Int
  x1 : Int
  y1 : Int
deriving DecidableEq, Repr

/-- One recognized word: its text and its box. -/
structure Word where
  text : Str
  bbox : BBox
deriving DecidableEq, Repr

/-- A rectangle pushed onto the `coordinates` list (the JS objects
`{left, top, width, height}`, with `photo := true` for the extra
`type: 'photo'` tag on the heuristic photo region). -/
structure Region where
  left : Int
  top : Int
  width : Int
  height : Int
  photo : Bool
deriving DecidableEq, Repr

/-- The mutable `pii` object of `extractPIIWithCoordinates`, field for
field in insertion order. -/
structure PII where
  name : Option Str
  dob : Option Str
  aadhaar : Option Str
  address : Option Str
  phone : Option Str
  email : Option Str
  pan : Option Str
  fatherName : Option Str
  documentType : Option Str
  hasPhoto : Bool
deriving DecidableEq, Repr

/-- `getEmptyPII`. -/
def getEmptyPII : PII :=
  { name := none, dob := none, aadhaar := none, address := none,
    phone := none, email := none, pan := none, fatherName := none,
    documentType := none, hasPhoto := false }

/-- Inner loop of one DP row of `levenshteinDistance`: walking along
`str1` with the cells `diag = matrix[i-1][j-1]`, `left = matrix[i][j-1]`
and `up = matrix[i-1][j]`, each new cell is `diag` when the characters
agree and otherwise `1 + min(diag, left, up)`. -/
def levRowGo (c2 : Char) : Str → List Nat → Nat → Nat → List Nat
  | [], _, _, _ => []
  | _ :: _, [], _, _ => []
  | a :: s1t, up :: rest, diag, left =>
    (if c2 = a then diag else 1 + min diag (min left up)) ::
      levRowGo c2 s1t rest up (if c2 = a then diag else 1 + min diag (min left up))

/-- One DP row of `levenshteinDistance`: `matrix[i][0] = i` (here
`p0 + 1`), then the inner loop over `str1`. -/
def levRow (c2 : Char) (s1 : Str) (prevRow : List Nat) : List Nat :=
  match prevRow with
  | [] => []
  | p0 :: rest => (p0 + 1) :: levRowGo c2 s1 rest p0 (p0 + 1)

/-- `levenshteinDistance(str1, str2)`: the source fills a DP matrix with
`matrix[i][0] = i`, `matrix[0][j] = j` and the unit-cost edit-distance
recurrence, returning `matrix[str2.length][str1.length]`; this rolls the
matrix row by row (one row per character of `str2`) and reads the last
cell of the final row. -/
def levenshteinDistance (str1 str2 : Str) : Nat :=
  ((str2.foldl (fun row c2 => levRow c2 str1 row)
      (List.range (str1.length + 1))).getLast?).getD 0

/-- The region `{left: x0, top: y0, width: x1-x0, height: y1-y0}` of a
single word, as pushed in the fuzzy branch of `findTextCoordinates`. -/
def regionOfBox (b : BBox) : Region :=
  { left := b.x0, top := b.y0, width := b.x1 - b.x0, height := b.y1 - b.y0,
    photo := false }

/-- Acceptance test of the fuzzy branch of `findTextCoordinates`:
`word.text && word.text.length > 2` and then substring containment either
way or edit distance at most 2 between the `[^\w]`-stripped lowercased
texts. -/
def fuzzyAccept (searchText : Str) (w : Word) : Bool :=
  w.text.length > 2 &&
    (let wordText := (lowerStr w.text).filter isWordCh
     let searchTextClean := (lowerStr searchText).filter isWordCh
     hasInfix wordText searchTextClean ||
       hasInfix searchTextClean wordText ||
       levenshteinDistance wordText searchTextClean ≤ 2)

/-- Inner confirmation loop of the exact branch: check that the following
words contain the remaining tokens in sequence.  The loop condition
`j < searchWords.length && i + j < words.length` ends the loop with
`allMatch` still `true` when the word list runs out, so exhausting the
words yields `some` of the words checked so far. -/
def tryConfirm : List Str → List Word → Option (List Word)
  | [], _ => some []
  | _ :: _, [] => some []
  | t :: ts, w :: ws =>
    if !w.text.isEmpty && hasInfix (lowerStr w.text) t then
      (tryConfirm ts ws).map (w :: ·)
    else none

/-- Minimal enclosing rectangle over a non-empty run of matched words:
`(min x0, min y0, max x1, max y1)` rendered as `{left, top, width, height}`. -/
def mergedRegion (w : Word) (ms : List Word) : Region :=
  let xs0 := (w :: ms).map (fun v => v.bbox.x0)
  let ys0 := (w :: ms).map (fun v => v.bbox.y0)
  let xs1 := (w :: ms).map (fun v => v.bbox.x1)
  let ys1 := (w :: ms).map (fun v => v.bbox.y1)
  let minX := xs0.foldl min w.bbox.x0
  let minY := ys0.foldl min w.bbox.y0
  let maxX := xs1.foldl max w.bbox.x1
  let maxY := ys1.foldl max w.bbox.y1
  { left := minX, top := minY, width := maxX - minX, height := maxY - minY,
    photo := false }

/-- Outer loop of the exact branch: at every word position whose text
contains the first token, run the confirmation loop and, on success,
push the merged rectangle; the outer index always advances by one. -/
def exactScan (t0 : Str) (ts : List Str) : List Word → List Region
  | [] => []
  | w :: rest =>
    (if !w.text.isEmpty && hasInfix (lowerStr w.text) t0 then
       match tryConfirm ts rest with
       | some ms => [mergedRegion w ms]
       | none => []
     else []) ++ exactScan t0 ts rest

/-- `findTextCoordinates(searchText, words, fuzzyMatch)`. -/
def findTextCoordinates (searchText : Str) (words : List Word)
    (fuzzyMatch : Bool) : List Region :=
  if fuzzyMatch then
    words.filterMap fun w =>
      if fuzzyAccept searchText w then some (regionOfBox w.bbox) else none
  else
    match jsSplitWs (lowerStr searchText) with
    | [] => []  -- unreachable: jsSplitWs always returns at least one piece
    | t0 :: ts => exactScan t0 ts words

/-! ### Regex scanners

Each JS regex of the source is translated to an explicit left-to-right
scanner with the same `\b` boundary and greediness behaviour.  Scanners
that must enumerate successive `/g` matches carry a fuel argument that is
initialised to more than the text length (every step consumes at least
one character, so the fuel never runs out). -/

/-- One of the date separators `[\/\-\.]`. -/
def isSep (c : Char) : Bool := c = '/' || c = '-' || c = '.'

/-- `\d{1,2}` followed by a separator, with the regex's greedy preference
for two digits (the one-digit alternative only survives when the second
character is itself a separator).  Returns digits, separator, rest. -/
def digitsSep : Str → Option (Str × Char × Str)
  | a :: b :: c :: rest =>
    if a.isDigit then
      if b.isDigit then
        if isSep c then some ([a, b], c, rest) else none
      else if isSep b then some ([a], b, c :: rest) else none
    else none
  | [a, b] => if a.isDigit && isSep b then some ([a], b, []) else none
  | _ => none

/-- Exactly `\d{4}`. -/
def fourDigits : Str → Option (Str × Str)
  | a :: b :: c :: d :: rest =>
    if a.isDigit && b.isDigit && c.isDigit && d.isDigit then
      some ([a, b, c, d], rest)
    else none
  | _ => none

/-- The bare date group `\d{1,2}[\/\-\.]\d{1,2}[\/\-\.]\d{4}` at the head
of the input (no boundary assertions); returns the matched text and the
remaining input. -/
def matchDateBare (l : Str) : Option (Str × Str) :=
  match digitsSep l with
  | none => none
  | some (d1, s1, r1) =>
    match digitsSep r1 with
    | none => none
    | some (d2, s2, r2) =>
      match fourDigits r2 with
      | none => none
      | some (d3, r3) => some (d1 ++ s1 :: d2 ++ s2 :: d3, r3)

/-- Numeric value of an all-digit string (JS `parseInt` on a regex group). -/
def digitsToNat (l : Str) : Nat :=
  l.foldl (fun n c => n * 10 + (c.toNat - '0'.toNat)) 0

/-- The year returned by `new Date().getFullYear()` at verification time. -/
def currentYear : Nat := 2026

/-- `isValidDate(dateStr)`: anchored re-parse of the date shape plus the
range checks day ∈ [1,31], month ∈ [1,12], year ∈ [1900, current year]. -/
def isValidDate (dateStr : Str) : Bool :=
  match digitsSep dateStr with
  | none => false
  | some (d1, _, r1) =>
    match digitsSep r1 with
    | none => false
    | some (d2, _, r2) =>
      match fourDigits r2 with
      | some (d3, []) =>
        let day := digitsToNat d1
        let month := digitsToNat d2
        let year := digitsToNat d3
        1 ≤ day && day ≤ 31 && 1 ≤ month && month ≤ 12 &&
          1900 ≤ year && year ≤ currentYear
      | _ => false

/-- `true` when the next character (if any) is outside `\w`, i.e. the JS
`\b` assertion after a word character. -/
def endBoundary : Str → Bool
  | [] => true
  | c :: _ => !isWordCh c

/-- `true` when the previous character (if any) is outside `\w`, i.e. the
JS `\b` assertion before a word character. -/
def startBoundary : Option Char → Bool
  | none => true
  | some c => !isWordCh c

/-- Matcher for DOB pattern 1, `/\b(\d{1,2}[\/\-\.]\d{1,2}[\/\-\.]\d{4})\b/g`,
anchored at the current position with `prev` the preceding character. -/
def dob1At (prev : Option Char) (l : Str) : Option (Str × Str) :=
  if startBoundary prev then
    match matchDateBare l with
    | some (d, rest) => if endBoundary rest then some (d, rest) else none
    | none => none
  else none

/-- Matcher for DOB pattern 2, `/DOB:?\s*(\d{1,2}[\/\-\.]\d{1,2}[\/\-\.]\d{4})/gi`
(no boundary assertions; the literal is case-insensitive); returns the
captured date group and the rest of the input after the whole match. -/
def dob2At (_prev : Option Char) (l : Str) : Option (Str × Str) :=
  match l with
  | d :: o :: b :: rest =>
    if d.toLower = 'd' && o.toLower = 'o' && b.toLower = 'b' then
      let rest1 := match rest with
        | ':' :: r => r  -- `:?` greedily consumes a colon
        | _ => rest
      matchDateBare (rest1.dropWhile isWs)  -- `\s*` greedy
    else none
  | _ => none

/-- Matcher for DOB pattern 3,
`/जन्म\s*तिथि[:\s]*(\d{1,2}[\/\-\.]\d{1,2}[\/\-\.]\d{4})/gi`. -/
def dob3At (_prev : Option Char) (l : Str) : Option (Str × Str) :=
  if isPrefixB "जन्म".data l then
    let r1 := (l.drop "जन्म".data.length).dropWhile isWs
    if isPrefixB "तिथि".data r1 then
      matchDateBare ((r1.drop "तिथि".data.length).dropWhile (fun c => c = ':' || isWs c))
    else none
  else none

/-- Enumerate the successive `/g` matches of a positional matcher in
document order, resuming after the end of each match exactly as the JS
`lastIndex` mechanism does. -/
def scanAllB (m : Option Char → Str → Option (Str × Str)) :
    Nat → Option Char → Str → List Str
  | 0, _, _ => []
  | _ + 1, _, [] => []
  | fuel + 1, prev, c :: t =>
    match m prev (c :: t) with
    | some (d, rest) =>
      d :: scanAllB m fuel (match d.getLast? with
        | some x => some x
        | none => prev) rest
    | none => scanAllB m fuel (some c) t

/-- First match of a positional matcher, scanning left to right. -/
def scanFirst (m : Option Char → Str → Option Str) :
    Option Char → Str → Option Str
  | _, [] => none
  | prev, c :: t =>
    match m prev (c :: t) with
    | some r => some r
    | none => scanFirst m (some c) t

/-- The character shape `[A-Z]{5}\d{4}[A-Z]` (note: the source regex has
no `i` flag, so only uppercase letters match). -/
def panShape (p : Str) : Bool :=
  p.length = 10 && (p.take 5).all Char.isUpper &&
    ((p.drop 5).take 4).all Char.isDigit && (p.drop 9).all Char.isUpper

/-- Matcher for the PAN regex `/\b([A-Z]{5}\d{4}[A-Z])\b/g` anchored at
the current position: the next ten characters have the PAN shape and sit
between word boundaries. -/
def panAt (prev : Option Char) (l : Str) : Option Str :=
  if startBoundary prev && panShape (l.take 10) && endBoundary (l.drop 10) then
    some (l.take 10)
  else none

/-- `n` digits exactly, returning them and the rest. -/
def takeNDigits (n : Nat) (l : Str) : Option (Str × Str) :=
  if (l.take n).length = n && (l.take n).all Char.isDigit then
    some (l.take n, l.drop n)
  else none

/-- Matcher for phone pattern 1, `/\b(\+91[\s\-]?\d{10})\b/g`.  Because
`+` is not a word character, the leading `\b` holds only when the
preceding character IS a word character; at the start of the text the
pattern cannot match. -/
def phone1At (prev : Option Char) (l : Str) : Option Str :=
  match l with
  | '+' :: '9' :: '1' :: rest =>
    if (match prev with
        | some p => isWordCh p
        | none => false) then
      match rest with
      | s :: rest2 =>
        if isWs s || s = '-' then
          match takeNDigits 10 rest2 with
          | some (ds, rest3) =>
            if endBoundary rest3 then some ('+' :: '9' :: '1' :: s :: ds)
            else none
          | none => none
        else
          match takeNDigits 10 rest with
          | some (ds, rest3) =>
            if endBoundary rest3 then some ('+' :: '9' :: '1' :: ds) else none
          | none => none
      | [] => none
    else none
  | _ => none

/-- Matcher for phone pattern 2, `/\b([6-9]\d{9})\b/g`. -/
def phone2At (prev : Option Char) (l : Str) : Option Str :=
  if startBoundary prev then
    match l with
    | c :: rest =>
      if '6' ≤ c && c ≤ '9' && c.isDigit then
        match takeNDigits 9 rest with
        | some (ds, rest2) =>
          if endBoundary rest2 then some (c :: ds) else none
        | none => none
      else none
    | [] => none
  else none

/-- Maximal runs of consecutive digits of the text.  The source computes
`text.replace(/[^\d\s]/g, ' ').match(/\d+/g)`: every non-digit character
(replaced by a space or already whitespace) separates runs, so the runs
are exactly the maximal digit runs of the original text. -/
def digitRuns : Str → List Str
  | [] => []
  | [c] => if c.isDigit then [[c]] else []
  | c :: d :: t =>
    if c.isDigit then
      if d.isDigit then
        match digitRuns (d :: t) with
        | r :: rs => (c :: r) :: rs
        | [] => [[c]]
      else [c] :: digitRuns (d :: t)
    else digitRuns (d :: t)

/-- `isValidAadhaar(aadhaar)`: 12 digits whose first digit is neither
`'0'` nor `'1'`. -/
def isValidAadhaar (aadhaar : Str) : Bool :=
  aadhaar.length = 12 && aadhaar.all Char.isDigit &&
    aadhaar.head? ≠ some '0' && aadhaar.head? ≠ some '1'

/-- `num.slice(0,4) + sep + num.slice(4,8) + sep + num.slice(8,12)`. -/
def groupBy4 (sep : Char) (num : Str) : Str :=
  num.take 4 ++ sep :: ((num.drop 4).take 4 ++ sep :: (num.drop 8).take 4)

/-! ### Line-oriented name extraction helpers -/

/-- JS `text.split('\n')`. -/
def splitOnNl : Str → List Str
  | [] => [[]]
  | c :: t =>
    let r := splitOnNl t
    if c = '\n' then [] :: r
    else
      match r with
      | [] => [[c]]
      | h :: rs => (c :: h) :: rs

/-- Collapse every whitespace run to a single space (`replace(/\s+/g,' ')`);
the flag records that the previous character was whitespace already
emitted as the run's single space. -/
def collapseWsGo : Str → Bool → Str
  | [], _ => []
  | c :: t, inWs =>
    if isWs c then
      if inWs then collapseWsGo t true else ' ' :: collapseWsGo t true
    else c :: collapseWsGo t false

/-- `replace(/\s+/g, ' ')`. -/
def collapseWs (s : Str) : Str :=
  collapseWsGo s false

/-- `cleanName(name)`: pipes, digit runs and non-word punctuation become
spaces, whitespace is collapsed, then trim and uppercase.  (Replacing each
digit by a space instead of each digit run gives the same result once the
whitespace collapse has run.) -/
def cleanName (name : Str) : Str :=
  let replaced := name.map fun c =>
    if c = '|' || c.isDigit || (!isWordCh c && !isWs c) then ' ' else c
  (jsTrim (collapseWs replaced)).map Char.toUpper

/-- `isValidName(name)`: non-empty (JS truthiness), length in (2,50), not
purely numeric, and free of the institutional tokens. -/
def isValidName (name : Str) : Bool :=
  !name.isEmpty && name.length > 2 && name.length < 50 &&
    !(name.all Char.isDigit) &&
    !hasInfix (lowerStr name) "income".data &&
    !hasInfix (lowerStr name) "tax".data &&
    !hasInfix (lowerStr name) "department".data

/-- The trimmed lines of length > 1 that the name extractor scans. -/
def nameLines (text : Str) : List Str :=
  ((splitOnNl text).map jsTrim).filter fun l => l.length > 1

/-- Strategy 1 of `extractNamesWithCoordinates`: the first line containing
`"name"` (but not `"father"`) whose successor cleans to a valid name;
the loop only breaks when a valid candidate is found. -/
def nameStrat1 : List Str → Option Str
  | [] => none
  | [_] => none
  | l1 :: l2 :: rest =>
    if hasInfix (lowerStr l1) "name".data &&
        !hasInfix (lowerStr l1) "father".data then
      let cand := cleanName l2
      if isValidName cand then some cand else nameStrat1 (l2 :: rest)
    else nameStrat1 (l2 :: rest)

/-- A line containing one of the father keywords. -/
def fatherKeywordHit (line : Str) : Bool :=
  let ll := lowerStr line
  hasInfix ll "father".data || hasInfix ll "पिता".data ||
    hasInfix ll "s/o".data || hasInfix ll "son of".data

/-- Strategy 2 of `extractNamesWithCoordinates`: every keyword line whose
successor cleans to a valid name overwrites `fatherName` and appends that
candidate's fuzzy coordinates (the outer line loop never breaks, so the
last hit wins while every hit contributes regions). -/
def fatherStrat (words : List Word) : List Str → PII × List Region → PII × List Region
  | [], s => s
  | [_], s => s
  | l1 :: l2 :: rest, s =>
    if fatherKeywordHit l1 then
      let cand := cleanName l2
      if isValidName cand then
        fatherStrat words (l2 :: rest)
          ({ s.1 with fatherName := some cand },
            s.2 ++ findTextCoordinates cand words true)
      else fatherStrat words (l2 :: rest) s
    else fatherStrat words (l2 :: rest) s

/-! ### The extractors and the pipeline -/

/-- `detectDocumentType(text, pii)`: ordered keyword checks, first match
wins, with the `Government ID` / `hasPhoto = true` fail-safe default. -/
def detectDocumentType (text : Str) (pii : PII) : PII :=
  if hasInfix (lowerStr text) "income tax".data ||
      hasInfix (lowerStr text) "permanent account".data then
    { pii with documentType := some "PAN Card".data, hasPhoto := true }
  else if hasInfix (lowerStr text) "aadhaar".data ||
      hasInfix (lowerStr text) "आधार".data ||
      hasInfix (lowerStr text) "uidai".data then
    { pii with documentType := some "Aadhaar Card".data, hasPhoto := true }
  else if hasInfix (lowerStr text) "driving licence".data ||
      hasInfix (lowerStr text) "transport".data then
    { pii with documentType := some "Driving License".data, hasPhoto := true }
  else
    { pii with documentType := some "Government ID".data, hasPhoto := true }

/-- The date found by `extractDOBWithCoordinates`: first `isValidDate`
match of pattern 1, else of pattern 2, else of pattern 3. -/
def dobFound (text : Str) : Option Str :=
  match (scanAllB dob1At (text.length + 1) none text).find? isValidDate with
  | some d => some d
  | none =>
    match (scanAllB dob2At (text.length + 1) none text).find? isValidDate with
    | some d => some d
    | none => (scanAllB dob3At (text.length + 1) none text).find? isValidDate

/-- `extractDOBWithCoordinates`. -/
def extractDOBWithCoordinates (text : Str) (words : List Word)
    (s : PII × List Region) : PII × List Region :=
  match dobFound text with
  | none => s
  | some d =>
    ({ s.1 with dob := some d }, s.2 ++ findTextCoordinates d words false)

/-- The acceptance test of the run loop in `extractAadhaarWithCoordinates`:
`num.length === 12 && this.isValidAadhaar(num)`. -/
def aadhaarPred (num : Str) : Bool :=
  num.length = 12 && isValidAadhaar num

/-- `extractAadhaarWithCoordinates`: first 12-digit run passing
`isValidAadhaar` becomes the field; the three re-derived surface forms
are tried in order and the first with non-empty (fuzzy) coordinates
contributes its regions. -/
def extractAadhaarWithCoordinates (text : Str) (words : List Word)
    (s : PII × List Region) : PII × List Region :=
  match (digitRuns text).find? aadhaarPred with
  | none => s
  | some num =>
    match [num, groupBy4 ' ' num, groupBy4 '-' num].find?
        (fun f => !(findTextCoordinates f words true).isEmpty) with
    | some f =>
      ({ s.1 with aadhaar := some num }, s.2 ++ findTextCoordinates f words true)
    | none => ({ s.1 with aadhaar := some num }, s.2)

/-- `extractPANWithCoordinates`: first match of the (case-sensitive)
PAN regex. -/
def extractPANWithCoordinates (text : Str) (words : List Word)
    (s : PII × List Region) : PII × List Region :=
  match scanFirst panAt none text with
  | none => s
  | some p =>
    ({ s.1 with pan := some p }, s.2 ++ findTextCoordinates p words false)

/-- `extractNamesWithCoordinates`: strategy 1 (label-adjacent name) then
strategy 2 (father keyword lines) over the same trimmed line list. -/
def extractNamesWithCoordinates (text : Str) (words : List Word)
    (s : PII × List Region) : PII × List Region :=
  fatherStrat words (nameLines text)
    (match nameStrat1 (nameLines text) with
     | some cand =>
       ({ s.1 with name := some cand }, s.2 ++ findTextCoordinates cand words true)
     | none => s)

/-- `extractPhoneWithCoordinates`: first match of pattern 1, else first
match of pattern 2. -/
def extractPhoneWithCoordinates (text : Str) (words : List Word)
    (s : PII × List Region) : PII × List Region :=
  match scanFirst phone1At none text with
  | some p =>
    ({ s.1 with phone := some p }, s.2 ++ findTextCoordinates p words false)
  | none =>
    match scanFirst phone2At none text with
    | some p =>
      ({ s.1 with phone := some p }, s.2 ++ findTextCoordinates p words false)
    | none => s

/-- `estimatePhotoRegion()`. -/
def estimatePhotoRegion : Region :=
  { left := 50, top := 50, width := 150, height := 180, photo := true }

/-- The final step of `extractPIIWithCoordinates`: push the heuristic
photo region when `pii.hasPhoto` is set. -/
def addPhotoRegion (s : PII × List Region) : PII × List Region :=
  if s.1.hasPhoto then (s.1, s.2 ++ [estimatePhotoRegion]) else s

/-- `extractPIIWithCoordinates(text, words)`: classifier first, then the
five extractors in source order, then the photo region. -/
def extractPIIWithCoordinates (text : Str) (words : List Word) :
    PII × List Region :=
  addPhotoRegion
    (extractPhoneWithCoordinates text words
      (extractNamesWithCoordinates text words
        (extractPANWithCoordinates text words
          (extractAadhaarWithCoordinates text words
            (extractDOBWithCoordinates text words
              (detectDocumentType text getEmptyPII, []))))))

/-- The text-processing slice of `processImage`: empty or whitespace-only
recognized text short-circuits to the empty record with no regions,
otherwise the extraction pipeline runs. -/
def processImage (text : Str) (words : List Word) : PII × List Region :=
  if (jsTrim text).isEmpty then (getEmptyPII, [])
  else extractPIIWithCoordinates text words

/-! ### Region aggregation (`createMaskedImage`) -/

/-- The per-region padding and clamping step of `createMaskedImage` with
`padding = 10`: `left = max(0, coord.left - padding)`,
`width = min(imageWidth - left, coord.width + padding * 2)` (and the same
for the vertical axis); the overlay is emitted only when both clamped
sides are strictly positive.  `Math.round` is the identity on the integer
coordinates modelled here. -/
def clampMaskRegion (imgW imgH : Int) (coord : Region) : Option Region :=
  if 0 < min (imgW - max 0 (coord.left - 10)) (coord.width + 20) &&
      0 < min (imgH - max 0 (coord.top - 10)) (coord.height + 20) then
    some { left := max 0 (coord.left - 10), top := max 0 (coord.top - 10),
           width := min (imgW - max 0 (coord.left - 10)) (coord.width + 20),
           height := min (imgH - max 0 (coord.top - 10)) (coord.height + 20),
           photo := coord.photo }
  else none

/-- The overlay list of `createMaskedImage`: each coordinate padded,
clamped and kept only when it survives `clampMaskRegion`. -/
def maskOverlays (imgW imgH : Int) (coords : List Region) : List Region :=
  coords.filterMap (clampMaskRegion imgW imgH)

/-! ### Response-layer field count

`processImage` logs and reports
`Object.entries(piiData.pii).filter(([k, v]) => v !== null && v !== '')`.
The entries iterate over all ten keys of the record in insertion order:
the eight extraction fields plus `documentType` and `hasPhoto`; a JS
boolean passes `v !== null && v !== ''` whatever its value. -/

/-- The JS values stored in the `pii` object. -/
inductive JSVal where
  | nullv : JSVal
  | strv : Str → JSVal
  | boolv : Bool → JSVal
deriving DecidableEq, Repr

/-- The predicate `v !== null && v !== ''`. -/
def jsFound : JSVal → Bool
  | .nullv => false
  | .strv s => !s.isEmpty
  | .boolv _ => true

/-- An optional string field as a JS value. -/
def jsOfOpt : Option Str → JSVal
  | none => .nullv
  | some s => .strv s

/-- `Object.entries(pii)` in insertion order. -/
def piiEntries (p : PII) : List JSVal :=
  [jsOfOpt p.name, jsOfOpt p.dob, jsOfOpt p.aadhaar, jsOfOpt p.address,
   jsOfOpt p.phone, jsOfOpt p.email, jsOfOpt p.pan, jsOfOpt p.fatherName,
   jsOfOpt p.documentType, .boolv p.hasPhoto]

/-- `foundPII.length`, the count reported in the success message and
mirrored by the controller's `privacySummary`. -/
def foundPIICount (p : PII) : Nat :=
  (piiEntries p).countP jsFound

/-- The count the specification describes: non-null values among the
eight PII fields name, fatherName, dateOfBirth, nationalId, taxId,
phone, email, address. -/
def specPiiFieldCount (p : PII) : Nat :=
  ([p.name, p.fatherName, p.dob, p.aadhaar, p.pan, p.phone, p.email,
    p.address].countP Option.isSome)

/-! ### Definitions taken from the specification's words

These two definitions deliberately follow the specification text rather
than the source, so that a claim about the source can be compared against
what the specification literally describes. -/

/-- Spec-side national-ID extractor, following the sentence "strips all
non-digit characters from the full text, then scans for any 12-digit
substring whose first digit is neither `0` nor `1`; first valid candidate
wins": delete every non-digit, then take the first 12-character window
whose first digit is not `'0'`/`'1'`. -/
def specNationalIdScan : Str → Option Str
  | [] => none
  | c :: t =>
    if 12 ≤ (c :: t).length && c ≠ '0' && c ≠ '1' then some ((c :: t).take 12)
    else specNationalIdScan t

/-- Spec-side national-ID extraction over the full text. -/
def specNationalIdExtract (text : Str) : Option Str :=
  specNationalIdScan (text.filter Char.isDigit)

/-- Spec-side matcher for the claimed case-insensitive tax-ID regex:
5 letters + 4 digits + 1 letter of either case, with word boundaries. -/
def panCIAt (prev : Option Char) (l : Str) : Option Str :=
  if startBoundary prev then
    match l with
    | a :: b :: c :: d :: e :: f :: g :: h :: i :: j :: rest =>
      if [a, b, c, d, e].all Char.isAlpha && [f, g, h, i].all Char.isDigit &&
          j.isAlpha && endBoundary rest then
        some [a, b, c, d, e, f, g, h, i, j]
      else none
    | _ => none
  else none

/-- Spec-side tax-ID extraction: first match of the case-insensitive
pattern. -/
def specTaxIdExtract (text : Str) : Option Str :=
  scanFirst panCIAt none text

/-- The fuzzy acceptance test as a function of the word's text alone:
used to state that fuzzy resolution never looks at a word's bounding
box, so a malformed box is never a reason to skip a word. -/
def fuzzyTextAccept (searchText wordText : Str) : Bool :=
  wordText.length > 2 &&
    (let wt := (lowerStr wordText).filter isWordCh
     let st := (lowerStr searchText).filter isWordCh
     hasInfix wt st || hasInfix st wt || levenshteinDistance wt st ≤ 2)

/-- The character immediately before the current scan position: the last
character of the consumed prefix, or the initial `prev` when the prefix
is empty. -/
def lastOr (prev : Option Char) (pre : Str) : Option Char :=
  match pre.getLast? with
  | some c => some c
  | none => prev

/-! ## Helper lemmas -/

theorem isPrefixB_iff : ∀ pat l : Str, isPrefixB pat l = true ↔ ∃ r, l = pat ++ r := by
  intro pat
  induction pat with
  | nil => intro l; simp [isPrefixB]
  | cons a as ih =>
    intro l
    cases l with
    | nil => simp [isPrefixB]
    | cons b bs =>
      simp only [isPrefixB, Bool.and_eq_true, decide_eq_true_eq, ih, List.cons_append]
      constructor
      · rintro ⟨rfl, r, rfl⟩; exact ⟨r, rfl⟩
      · rintro ⟨r, h⟩
        obtain ⟨rfl, rfl⟩ := by simpa using h
        exact ⟨rfl, r, rfl⟩

theorem isPrefixB_self : ∀ l : Str, isPrefixB l l = true := by
  intro l; rw [isPrefixB_iff]; exact ⟨[], by simp⟩

theorem hasInfix_iff : ∀ hay pat : Str,
    hasInfix hay pat = true ↔ ∃ pre suf, hay = pre ++ pat ++ suf := by
  intro hay
  induction hay with
  | nil =>
    intro pat
    simp only [hasInfix, List.isEmpty_iff]
    constructor
    · rintro rfl; exact ⟨[], [], rfl⟩
    · rintro ⟨pre, suf, h⟩
      rcases List.append_eq_nil.mp h.symm with ⟨h1, h2⟩
      exact (List.append_eq_nil.mp h1).2
  | cons c t ih =>
    intro pat
    simp only [hasInfix, Bool.or_eq_true, isPrefixB_iff, ih]
    constructor
    · rintro (⟨r, hr⟩ | ⟨pre, suf, h⟩)
      · exact ⟨[], r, by simpa using hr⟩
      · exact ⟨c :: pre, suf, by simp [h]⟩
    · rintro ⟨pre, suf, h⟩
      cases pre with
      | nil => exact Or.inl ⟨suf, by simpa using h⟩
      | cons p ps =>
        simp only [List.cons_append, List.cons.injEq] at h
        exact Or.inr ⟨ps, suf, h.2⟩

theorem hasInfix_self : ∀ l : Str, hasInfix l l = true := by
  intro l
  cases l with
  | nil => simp [hasInfix]
  | cons c t => simp [hasInfix, isPrefixB_self]

theorem filterMapIf {α β : Type} (q : α → Bool) (f : α → β) :
    ∀ l : List α,
      (l.filterMap fun a => if q a then some (f a) else none) =
        (l.filter q).map f := by
  intro l
  induction l with
  | nil => simp
  | cons a t ih =>
    by_cases h : q a <;> simp [List.filter_cons, h, ih]

theorem findQdecomp {α : Type} (p : α → Bool) :
    ∀ (l : List α) (a : α), l.find? p = some a →
      p a = true ∧ ∃ l1 l2, l = l1 ++ a :: l2 ∧ ∀ x ∈ l1, p x = false := by
  intro l
  induction l with
  | nil => intro a h; simp [List.find?] at h
  | cons b t ih =>
    intro a h
    by_cases hb : p b
    · rw [List.find?_cons_of_pos _ hb] at h
      obtain rfl := Option.some.inj h
      exact ⟨hb, [], t, rfl, by simp⟩
    · rw [List.find?_cons_of_neg _ hb] at h
      obtain ⟨hpa, l1, l2, rfl, hl1⟩ := ih a h
      refine ⟨hpa, b :: l1, l2, rfl, ?_⟩
      intro x hx
      rcases List.mem_cons.mp hx with rfl | hx
      · simpa using hb
      · exact hl1 x hx

theorem headQdropWhileNot (p : Char → Bool) :
    ∀ (l : Str) (c : Char), (l.dropWhile p).head? = some c → p c = false := by
  intro l
  induction l with
  | nil => intro c h; simp [List.dropWhile] at h
  | cons a t ih =>
    intro c h
    by_cases ha : p a
    · rw [List.dropWhile_cons_of_pos ha] at h; exact ih c h
    · rw [List.dropWhile_cons_of_neg ha] at h
      obtain rfl := Option.some.inj h
      simpa using ha

theorem jsTrim_of_allWs : ∀ l : Str, l.all isWs = true → jsTrim l = [] := by
  intro l h
  have h1 : l.dropWhile isWs = [] :=
    List.dropWhile_eq_nil_iff.mpr fun x hx => List.all_eq_true.mp h x hx
  simp [jsTrim, h1]

theorem foldlMinLe (a : Int) : ∀ (l : List Int), l.foldl min a ≤ a ∧ ∀ x ∈ l, l.foldl min a ≤ x := by
  intro l
  induction l generalizing a with
  | nil => simp
  | cons b t ih =>
    obtain ⟨h1, h2⟩ := ih (min a b)
    refine ⟨le_trans h1 (min_le_left a b), ?_⟩
    intro x hx
    rcases List.mem_cons.mp hx with rfl | hx
    · exact le_trans h1 (min_le_right a x)
    · exact h2 x hx

theorem foldlMinMem (a : Int) : ∀ l : List Int, l.foldl min a = a ∨ l.foldl min a ∈ l := by
  intro l
  induction l generalizing a with
  | nil => simp
  | cons b t ih =>
    have hstep : (b :: t).foldl min a = t.foldl min (min a b) := by
      simp [List.foldl]
    rcases ih (min a b) with h | h
    · rcases min_cases a b with ⟨hm, _⟩ | ⟨hm, _⟩
      · exact Or.inl (by rw [hstep, h, hm])
      · exact Or.inr (by rw [hstep, h, hm]; exact List.mem_cons_self b t)
    · exact Or.inr (by rw [hstep]; exact List.mem_cons_of_mem b h)

theorem foldlMaxLe (a : Int) : ∀ (l : List Int), a ≤ l.foldl max a ∧ ∀ x ∈ l, x ≤ l.foldl max a := by
  intro l
  induction l generalizing a with
  | nil => simp
  | cons b t ih =>
    obtain ⟨h1, h2⟩ := ih (max a b)
    refine ⟨le_trans (le_max_left a b) h1, ?_⟩
    intro x hx
    rcases List.mem_cons.mp hx with rfl | hx
    · exact le_trans (le_max_right a x) h1
    · exact h2 x hx

theorem foldlMaxMem (a : Int) : ∀ l : List Int, l.foldl max a = a ∨ l.foldl max a ∈ l := by
  intro l
  induction l generalizing a with
  | nil => simp
  | cons b t ih =>
    have hstep : (b :: t).foldl max a = t.foldl max (max a b) := by
      simp [List.foldl]
    rcases ih (max a b) with h | h
    · rcases max_cases a b with ⟨hm, _⟩ | ⟨hm, _⟩
      · exact Or.inl (by rw [hstep, h, hm])
      · exact Or.inr (by rw [hstep, h, hm]; exact List.mem_cons_self b t)
    · exact Or.inr (by rw [hstep]; exact List.mem_cons_of_mem b h)

theorem digitRuns_cons_pos (c : Char) (t : Str) (hc : c.isDigit = true) :
    digitRuns (c :: t) =
      (c :: t.takeWhile Char.isDigit) :: digitRuns (t.dropWhile Char.isDigit) := by
  induction t generalizing c with
  | nil => simp [digitRuns, hc]
  | cons d t' ih =>
    by_cases hd : d.isDigit
    · rw [show digitRuns (c :: d :: t') =
          (match digitRuns (d :: t') with
           | r :: rs => (c :: r) :: rs
           | [] => [[c]]) by simp [digitRuns, hc, hd]]
      rw [ih d hd]
      simp [List.takeWhile_cons_of_pos hd, List.dropWhile_cons_of_pos hd]
    · have hd' : d.isDigit = false := by simpa using hd
      simp [digitRuns, hc, hd', List.takeWhile_cons_of_neg,
        List.dropWhile_cons_of_neg, hd]

theorem digitRuns_cons_neg (c : Char) (t : Str) (hc : c.isDigit = false) :
    digitRuns (c :: t) = digitRuns t := by
  cases t with
  | nil => simp [digitRuns, hc]
  | cons d t' => simp [digitRuns, hc]

/-- Every maximal digit run produced by `digitRuns` is a non-empty
all-digit substring of the text delimited on both sides by a non-digit
(or the text boundary). -/
theorem digitRuns_sound : ∀ (n : Nat) (t : Str), t.length ≤ n →
    ∀ r ∈ digitRuns t, r ≠ [] ∧ r.all Char.isDigit = true ∧
      ∃ pre suf, t = pre ++ r ++ suf ∧
        (∀ c, pre.getLast? = some c → c.isDigit = false) ∧
        (∀ c, suf.head? = some c → c.isDigit = false) := by
  intro n
  induction n with
  | zero =>
    intro t ht r hr
    obtain rfl := List.length_eq_zero.mp (Nat.le_zero.mp ht)
    simp [digitRuns] at hr
  | succ n ih =>
    intro t ht r hr
    cases t with
    | nil => simp [digitRuns] at hr
    | cons c tl =>
      have htl : tl.length ≤ n := by
        simpa using Nat.lt_succ_iff.mp (Nat.lt_of_lt_of_le (by simp) ht)
      by_cases hc : c.isDigit
      · rw [digitRuns_cons_pos c tl hc] at hr
        rcases List.mem_cons.mp hr with rfl | hr'
        · refine ⟨by simp, ?_, [], tl.dropWhile Char.isDigit, ?_, by simp, ?_⟩
          · rw [List.all_eq_true]
            intro x hx
            rcases List.mem_cons.mp hx with rfl | hx
            · simpa using hc
            · simpa using List.mem_takeWhile_imp hx
          · simp [List.takeWhile_append_dropWhile]
          · intro d hd
            exact headQdropWhileNot _ _ _ hd
        · obtain ⟨hne, hall, pre, suf, heq, hpre, hsuf⟩ :=
            ih (tl.dropWhile Char.isDigit)
              (le_trans (dropWhileLenLe _ _) htl) r hr'
          have hprene : pre ≠ [] := by
            rintro rfl
            cases r with
            | nil => exact hne rfl
            | cons x rs =>
              have hx : x.isDigit = false := by
                refine headQdropWhileNot Char.isDigit tl x ?_
                rw [heq]; simp
              have : x.isDigit = true := by
                have := List.all_eq_true.mp hall x (by simp)
                simpa using this
              simp [this] at hx
          refine ⟨hne, hall, c :: tl.takeWhile Char.isDigit ++ pre, suf, ?_, ?_, hsuf⟩
          · conv_lhs => rw [show tl = tl.takeWhile Char.isDigit ++ tl.dropWhile Char.isDigit from
              (List.takeWhile_append_dropWhile _ _).symm, heq]
            simp
          · intro d hd
            rw [show c :: tl.takeWhile Char.isDigit ++ pre =
                (c :: tl.takeWhile Char.isDigit) ++ pre from rfl,
              List.getLast?_append_of_ne_nil _ hprene] at hd
            exact hpre d hd
      · rw [digitRuns_cons_neg c tl (by simpa using hc)] at hr
        obtain ⟨hne, hall, pre, suf, heq, hpre, hsuf⟩ := ih tl htl r hr
        refine ⟨hne, hall, c :: pre, suf, by simp [heq], ?_, hsuf⟩
        intro d hd
        cases pre with
        | nil =>
          obtain rfl := Option.some.inj (by simpa using hd)
          simpa using hc
        | cons p ps =>
          rw [List.getLast?_cons_cons] at hd
          exact hpre d hd

/-- The confirmation loop accepts a run of words that match a prefix of
the token list pairwise (also when the words run out before the tokens:
the loop then ends with the match flag still set), returning the whole
run. -/
theorem tryConfirm_prefixRun :
    ∀ (ws : List Word) (ts : List Str), ws.length ≤ ts.length →
      List.Forall₂ (fun v t => ¬v.text.isEmpty ∧ hasInfix (lowerStr v.text) t = true)
        ws (ts.take ws.length) →
      tryConfirm ts ws = some ws := by
  intro ws
  induction ws with
  | nil =>
    intro ts _ _
    cases ts <;> rfl
  | cons w ws' ih =>
    intro ts hlen hall
    cases ts with
    | nil => simp at hlen
    | cons t ts' =>
      simp only [List.length_cons, List.take_succ_cons] at hall
      rcases List.forall₂_cons.mp hall with ⟨⟨hne, hinf⟩, htail⟩
      have : tryConfirm ts' ws' = some ws' := by
        refine ih ts' ?_ htail
        simpa using Nat.le_of_succ_le_succ (by simpa using hlen)
      simp [tryConfirm, hne, hinf, this]

theorem exactScan_cons (t0 : Str) (ts : List Str) (w : Word) (rest : List Word) :
    exactScan t0 ts (w :: rest) =
      (if !w.text.isEmpty && hasInfix (lowerStr w.text) t0 then
        match tryConfirm ts rest with
        | some ms => [mergedRegion w ms]
        | none => []
      else []) ++ exactScan t0 ts rest := rfl

/-- A position whose word does not contain the first token (or has empty
text) contributes nothing to the exact scan. -/
theorem exactScan_nil_of_nohit (t0 : Str) (ts : List Str) :
    ∀ ws : List Word,
      (∀ v ∈ ws, (!v.text.isEmpty && hasInfix (lowerStr v.text) t0) = false) →
      exactScan t0 ts ws = [] := by
  intro ws
  induction ws with
  | nil => simp [exactScan]
  | cons w rest ih =>
    intro h
    have hw := h w (by simp)
    have hrest : exactScan t0 ts rest = [] :=
      ih fun v hv => h v (List.mem_cons_of_mem _ hv)
    simp [exactScan, hw, hrest]

/-- Whether the confirmation loop succeeds, and how many words it
consumes, depends only on the words' texts, never on their boxes. -/
theorem tryConfirm_textOnly :
    ∀ (ts : List Str) (ws ws' : List Word),
      ws.map Word.text = ws'.map Word.text →
      (tryConfirm ts ws).isSome = (tryConfirm ts ws').isSome := by
  intro ts
  induction ts with
  | nil => intro ws ws' _; simp [tryConfirm]
  | cons t ts' ih =>
    intro ws ws' hmap
    cases ws with
    | nil =>
      cases ws' with
      | nil => rfl
      | cons _ _ => simp at hmap
    | cons w rest =>
      cases ws' with
      | nil => simp at hmap
      | cons v rest' =>
        simp only [List.map_cons, List.cons.injEq] at hmap
        obtain ⟨htext, hrest⟩ := hmap
        by_cases hcond : (!w.text.isEmpty && hasInfix (lowerStr w.text) t) = true
        · have hcond' : (!v.text.isEmpty && hasInfix (lowerStr v.text) t) = true := by
            rw [← htext]; exact hcond
          simp only [tryConfirm, hcond, hcond', if_true]
          have hih := ih rest rest' hrest
          cases h1 : tryConfirm ts' rest <;> cases h2 : tryConfirm ts' rest' <;>
            simp_all
        · have hcond' : ¬((!v.text.isEmpty && hasInfix (lowerStr v.text) t) = true) := by
            rw [← htext]; exact hcond
          simp [tryConfirm, hcond, hcond']

/-- How many regions the exact scan emits depends only on the words'
texts, never on their boxes. -/
theorem exactScan_textOnly (t0 : Str) (ts : List Str) :
    ∀ (ws ws' : List Word), ws.map Word.text = ws'.map Word.text →
      (exactScan t0 ts ws).length = (exactScan t0 ts ws').length := by
  intro ws
  induction ws with
  | nil =>
    intro ws' hmap
    obtain rfl : ws' = [] := by
      cases ws' with
      | nil => rfl
      | cons _ _ => simp at hmap
    rfl
  | cons w rest ih =>
    intro ws' hmap
    cases ws' with
    | nil => simp at hmap
    | cons v rest' =>
      simp only [List.map_cons, List.cons.injEq] at hmap
      obtain ⟨htext, hrest⟩ := hmap
      simp only [exactScan, List.length_append]
      rw [ih rest' hrest]
      congr 1
      by_cases hcond : (!w.text.isEmpty && hasInfix (lowerStr w.text) t0) = true
      · have hcond' : (!v.text.isEmpty && hasInfix (lowerStr v.text) t0) = true := by
          rw [← htext]; exact hcond
        simp only [hcond, hcond', if_true]
        have := tryConfirm_textOnly ts rest rest' hrest
        cases h1 : tryConfirm ts rest <;> cases h2 : tryConfirm ts rest' <;>
          simp_all
      · have hcond' : ¬((!v.text.isEmpty && hasInfix (lowerStr v.text) t0) = true) := by
          rw [← htext]; exact hcond
        simp [hcond, hcond']

/-- The fuzzy branch is the filter of the accepted words mapped to their
own boxes. -/
theorem fuzzy_refines (searchText : Str) (words : List Word) :
    findTextCoordinates searchText words true =
      (words.filter (fuzzyAccept searchText)).map fun w => regionOfBox w.bbox := by
  simp only [findTextCoordinates, if_true]
  exact filterMapIf (fuzzyAccept searchText) (fun w => regionOfBox w.bbox) words

/-- `fuzzyAccept` reads only the word's text. -/
theorem fuzzyAccept_textOnly (searchText : Str) (w : Word) :
    fuzzyAccept searchText w = fuzzyTextAccept searchText w.text := rfl

/-- A successful first-match scan comes from a successful positional
match somewhere in the text. -/
theorem scanFirst_some {m : Option Char → Str → Option Str} :
    ∀ (l : Str) (prev : Option Char) (r : Str),
      scanFirst m prev l = some r → ∃ prev' l', m prev' l' = some r := by
  intro l
  induction l with
  | nil => intro prev r h; simp [scanFirst] at h
  | cons c t ih =>
    intro prev r h
    rw [scanFirst] at h
    cases hm : m prev (c :: t) with
    | some x =>
      rw [hm] at h
      simp only [] at h
      exact ⟨prev, c :: t, hm.trans h⟩
    | none =>
      rw [hm] at h
      exact ih (some c) r h

theorem lastOr_cons (prev : Option Char) (c : Char) (pre : Str) :
    lastOr prev (c :: pre) = lastOr (some c) pre := by
  cases pre with
  | nil => simp [lastOr]
  | cons p ps =>
    cases h : (p :: ps).getLast? with
    | none => exact absurd h (by simp)
    | some x => simp [lastOr, List.getLast?_cons_cons, h]

theorem startBoundary_iff (prev : Option Char) :
    startBoundary prev = true ↔ ∀ c, prev = some c → isWordCh c = false := by
  cases prev <;> simp [startBoundary]

theorem endBoundary_iff (l : Str) :
    endBoundary l = true ↔ ∀ c, l.head? = some c → isWordCh c = false := by
  cases l <;> simp [endBoundary]

theorem panShape_length (p : Str) (h : panShape p = true) : p.length = 10 := by
  simp only [panShape, Bool.and_eq_true, decide_eq_true_eq] at h
  exact h.1.1.1

theorem panAt_some_iff (prev : Option Char) (l p : Str) :
    panAt prev l = some p ↔
      startBoundary prev = true ∧ panShape (l.take 10) = true ∧
        endBoundary (l.drop 10) = true ∧ p = l.take 10 := by
  unfold panAt
  cases h1 : startBoundary prev <;> cases h2 : panShape (l.take 10) <;>
    cases h3 : endBoundary (l.drop 10) <;> simp [h1, h2, h3, eq_comm]

/-- Soundness and leftmost-ness of the first-match PAN scan: a returned
match has the PAN shape, occurs in the text between word boundaries, and
no boundary-delimited PAN-shaped occurrence starts earlier. -/
theorem scanFirst_panAt_sound :
    ∀ (l : Str) (prev : Option Char) (p : Str),
      scanFirst panAt prev l = some p →
      ∃ pre suf, l = pre ++ p ++ suf ∧ panShape p = true ∧
        (∀ c, lastOr prev pre = some c → isWordCh c = false) ∧
        (∀ c, suf.head? = some c → isWordCh c = false) ∧
        ∀ pre' p' suf', l = pre' ++ p' ++ suf' → panShape p' = true →
          (∀ c, lastOr prev pre' = some c → isWordCh c = false) →
          (∀ c, suf'.head? = some c → isWordCh c = false) →
          pre.length ≤ pre'.length := by
  intro l
  induction l with
  | nil => intro prev p h; simp [scanFirst] at h
  | cons ch t ih =>
    intro prev p h
    rw [scanFirst] at h
    cases hm : panAt prev (ch :: t) with
    | some x =>
      rw [hm] at h
      simp only [] at h
      obtain rfl : x = p := Option.some.inj h
      rw [panAt_some_iff] at hm
      obtain ⟨hb, hshape, hend, rfl⟩ := hm
      refine ⟨[], (ch :: t).drop 10, ?_, hshape, ?_, ?_, ?_⟩
      · simp [List.take_append_drop]
      · intro c hc
        exact (startBoundary_iff prev).mp hb c hc
      · exact (endBoundary_iff _).mp hend
      · intro pre' p' suf' _ _ _ _
        exact Nat.zero_le _
    | none =>
      rw [hm] at h
      obtain ⟨pre, suf, heq, hshape, hpre, hsuf, hmin⟩ := ih (some ch) p h
      refine ⟨ch :: pre, suf, by simp [heq], hshape, ?_, hsuf, ?_⟩
      · intro c hc
        rw [lastOr_cons] at hc
        exact hpre c hc
      · intro pre' p' suf' heq' hshape' hpre' hsuf'
        cases pre' with
        | nil =>
          exfalso
          have h10 : p'.length = 10 := panShape_length _ hshape'
          have heqq : ch :: t = p' ++ suf' := by simpa using heq'
          have htake : (ch :: t).take 10 = p' := by
            rw [heqq]; exact List.take_left' h10
          have hdrop : (ch :: t).drop 10 = suf' := by
            rw [heqq]; exact List.drop_left' h10
          have hsb : startBoundary prev = true := by
            rw [startBoundary_iff]
            intro c hc
            exact hpre' c (by simpa [lastOr] using hc)
          have : panAt prev (ch :: t) = some p' := by
            rw [panAt_some_iff]
            exact ⟨hsb, by rw [htake]; exact hshape',
              by rw [hdrop]; exact (endBoundary_iff _).mpr hsuf', htake.symm⟩
          rw [hm] at this
          cases this
        | cons c2 pre'' =>
          simp only [List.cons_append, List.cons.injEq] at heq'
          obtain ⟨rfl, heq''⟩ := heq'
          have hb'' : ∀ c, lastOr (some ch) pre'' = some c → isWordCh c = false := by
            intro c hc
            refine hpre' c ?_
            rw [lastOr_cons]
            exact hc
          have := hmin pre'' p' suf' heq'' hshape' hb'' hsuf'
          simpa using Nat.succ_le_succ this

theorem isValidDate_ne_nil (d : Str) (h : isValidDate d = true) : d ≠ [] := by
  rintro rfl
  simp [isValidDate, digitsSep] at h

theorem dobFound_valid (text : Str) (d : Str) (h : dobFound text = some d) :
    isValidDate d = true := by
  unfold dobFound at h
  cases h1 : (scanAllB dob1At (text.length + 1) none text).find? isValidDate with
  | some x =>
    rw [h1] at h
    obtain rfl := Option.some.inj h
    exact List.find?_some h1
  | none =>
    rw [h1] at h
    cases h2 : (scanAllB dob2At (text.length + 1) none text).find? isValidDate with
    | some x =>
      rw [h2] at h
      obtain rfl := Option.some.inj h
      exact List.find?_some h2
    | none =>
      rw [h2] at h
      exact List.find?_some h

theorem nameStrat1_valid :
    ∀ (lines : List Str) (c : Str), nameStrat1 lines = some c → isValidName c = true := by
  intro lines
  induction lines with
  | nil => intro c h; simp [nameStrat1] at h
  | cons l1 rest ih =>
    cases rest with
    | nil => intro c h; simp [nameStrat1] at h
    | cons l2 rest' =>
      intro c h
      rw [nameStrat1] at h
      by_cases hc : (hasInfix (lowerStr l1) "name".data &&
          !hasInfix (lowerStr l1) "father".data) = true
      · rw [if_pos hc] at h
        by_cases hv : isValidName (cleanName l2) = true
        · rw [if_pos hv] at h
          obtain rfl := Option.some.inj h
          exact hv
        · rw [if_neg hv] at h
          exact ih c h
      · rw [if_neg hc] at h
        exact ih c h

theorem fatherStrat_fields (words : List Word) :
    ∀ (lines : List Str) (s : PII × List Region),
      (fatherStrat words lines s).1.name = s.1.name ∧
      (fatherStrat words lines s).1.dob = s.1.dob ∧
      (fatherStrat words lines s).1.aadhaar = s.1.aadhaar ∧
      (fatherStrat words lines s).1.address = s.1.address ∧
      (fatherStrat words lines s).1.phone = s.1.phone ∧
      (fatherStrat words lines s).1.email = s.1.email ∧
      (fatherStrat words lines s).1.pan = s.1.pan ∧
      (fatherStrat words lines s).1.documentType = s.1.documentType ∧
      (fatherStrat words lines s).1.hasPhoto = s.1.hasPhoto ∧
      ((fatherStrat words lines s).1.fatherName = s.1.fatherName ∨
        ∃ c, (fatherStrat words lines s).1.fatherName = some c ∧
          isValidName c = true) := by
  intro lines
  induction lines with
  | nil => intro s; simp [fatherStrat]
  | cons l1 rest ih =>
    cases rest with
    | nil => intro s; simp [fatherStrat]
    | cons l2 rest' =>
      intro s
      rw [fatherStrat]
      by_cases hk : fatherKeywordHit l1 = true
      · rw [if_pos hk]
        by_cases hv : isValidName (cleanName l2) = true
        · rw [if_pos hv]
          obtain ⟨e1, e2, e3, e4, e5, e6, e7, e8, e9, e10⟩ :=
            ih ({ s.1 with fatherName := some (cleanName l2) },
              s.2 ++ findTextCoordinates (cleanName l2) words true)
          refine ⟨by simpa using e1, by simpa using e2, by simpa using e3,
            by simpa using e4, by simpa using e5, by simpa using e6,
            by simpa using e7, by simpa using e8, by simpa using e9, ?_⟩
          rcases e10 with h | ⟨c, hc, hcv⟩
          · exact Or.inr ⟨cleanName l2, by simpa using h, hv⟩
          · exact Or.inr ⟨c, hc, hcv⟩
        · rw [if_neg hv]
          exact ih s
      · rw [if_neg hk]
        exact ih s

theorem phone1At_ne_nil :
    ∀ (prev : Option Char) (l r : Str), phone1At prev l = some r → r ≠ [] := by
  intro prev l r h
  unfold phone1At at h
  repeat' split at h
  all_goals first
    | (obtain rfl := Option.some.inj h; simp)
    | exact absurd h (by simp)

theorem phone2At_ne_nil :
    ∀ (prev : Option Char) (l r : Str), phone2At prev l = some r → r ≠ [] := by
  intro prev l r h
  unfold phone2At at h
  repeat' split at h
  all_goals first
    | (obtain rfl := Option.some.inj h; simp)
    | exact absurd h (by simp)

theorem detectDocumentType_fields (text : Str) (pii : PII) :
    (detectDocumentType text pii).name = pii.name ∧
    (detectDocumentType text pii).dob = pii.dob ∧
    (detectDocumentType text pii).aadhaar = pii.aadhaar ∧
    (detectDocumentType text pii).address = pii.address ∧
    (detectDocumentType text pii).phone = pii.phone ∧
    (detectDocumentType text pii).email = pii.email ∧
    (detectDocumentType text pii).pan = pii.pan ∧
    (detectDocumentType text pii).fatherName = pii.fatherName ∧
    (detectDocumentType text pii).hasPhoto = true ∧
    ∃ d, (detectDocumentType text pii).documentType = some d ∧ d ≠ [] := by
  unfold detectDocumentType
  repeat' split
  all_goals
    exact ⟨rfl, rfl, rfl, rfl, rfl, rfl, rfl, rfl, rfl, ⟨_, rfl, by decide⟩⟩

theorem extractDOB_fields (text : Str) (words : List Word) (s : PII × List Region) :
    (extractDOBWithCoordinates text words s).1.name = s.1.name ∧
    (extractDOBWithCoordinates text words s).1.aadhaar = s.1.aadhaar ∧
    (extractDOBWithCoordinates text words s).1.address = s.1.address ∧
    (extractDOBWithCoordinates text words s).1.phone = s.1.phone ∧
    (extractDOBWithCoordinates text words s).1.email = s.1.email ∧
    (extractDOBWithCoordinates text words s).1.pan = s.1.pan ∧
    (extractDOBWithCoordinates text words s).1.fatherName = s.1.fatherName ∧
    (extractDOBWithCoordinates text words s).1.documentType = s.1.documentType ∧
    (extractDOBWithCoordinates text words s).1.hasPhoto = s.1.hasPhoto ∧
    ((extractDOBWithCoordinates text words s).1.dob = s.1.dob ∨
      ∃ d, (extractDOBWithCoordinates text words s).1.dob = some d ∧ d ≠ []) := by
  unfold extractDOBWithCoordinates
  cases h : dobFound text with
  | none => simp
  | some d =>
    exact ⟨rfl, rfl, rfl, rfl, rfl, rfl, rfl, rfl, rfl,
      Or.inr ⟨d, rfl, isValidDate_ne_nil d (dobFound_valid text d h)⟩⟩

theorem extractAadhaar_fields (text : Str) (words : List Word) (s : PII × List Region) :
    (extractAadhaarWithCoordinates text words s).1.name = s.1.name ∧
    (extractAadhaarWithCoordinates text words s).1.dob = s.1.dob ∧
    (extractAadhaarWithCoordinates text words s).1.address = s.1.address ∧
    (extractAadhaarWithCoordinates text words s).1.phone = s.1.phone ∧
    (extractAadhaarWithCoordinates text words s).1.email = s.1.email ∧
    (extractAadhaarWithCoordinates text words s).1.pan = s.1.pan ∧
    (extractAadhaarWithCoordinates text words s).1.fatherName = s.1.fatherName ∧
    (extractAadhaarWithCoordinates text words s).1.documentType = s.1.documentType ∧
    (extractAadhaarWithCoordinates text words s).1.hasPhoto = s.1.hasPhoto ∧
    (extractAadhaarWithCoordinates text words s).1.aadhaar =
      (match (digitRuns text).find? aadhaarPred with
       | none => s.1.aadhaar
       | some num => some num) := by
  unfold extractAadhaarWithCoordinates
  cases h : (digitRuns text).find? aadhaarPred with
  | none => simp
  | some num =>
    simp only []
    cases h2 : [num, groupBy4 ' ' num, groupBy4 '-' num].find?
        (fun f => !(findTextCoordinates f words true).isEmpty) with
    | none => simp
    | some f => simp

theorem extractPAN_fields (text : Str) (words : List Word) (s : PII × List Region) :
    (extractPANWithCoordinates text words s).1.name = s.1.name ∧
    (extractPANWithCoordinates text words s).1.dob = s.1.dob ∧
    (extractPANWithCoordinates text words s).1.aadhaar = s.1.aadhaar ∧
    (extractPANWithCoordinates text words s).1.address = s.1.address ∧
    (extractPANWithCoordinates text words s).1.phone = s.1.phone ∧
    (extractPANWithCoordinates text words s).1.email = s.1.email ∧
    (extractPANWithCoordinates text words s).1.fatherName = s.1.fatherName ∧
    (extractPANWithCoordinates text words s).1.documentType = s.1.documentType ∧
    (extractPANWithCoordinates text words s).1.hasPhoto = s.1.hasPhoto ∧
    (extractPANWithCoordinates text words s).1.pan =
      (match scanFirst panAt none text with
       | none => s.1.pan
       | some p => some p) := by
  unfold extractPANWithCoordinates
  cases h : scanFirst panAt none text with
  | none => simp
  | some p => exact ⟨rfl, rfl, rfl, rfl, rfl, rfl, rfl, rfl, rfl, rfl⟩

theorem extractNames_fields (text : Str) (words : List Word) (s : PII × List Region) :
    (extractNamesWithCoordinates text words s).1.dob = s.1.dob ∧
    (extractNamesWithCoordinates text words s).1.aadhaar = s.1.aadhaar ∧
    (extractNamesWithCoordinates text words s).1.address = s.1.address ∧
    (extractNamesWithCoordinates text words s).1.phone = s.1.phone ∧
    (extractNamesWithCoordinates text words s).1.email = s.1.email ∧
    (extractNamesWithCoordinates text words s).1.pan = s.1.pan ∧
    (extractNamesWithCoordinates text words s).1.documentType = s.1.documentType ∧
    (extractNamesWithCoordinates text words s).1.hasPhoto = s.1.hasPhoto ∧
    ((extractNamesWithCoordinates text words s).1.name = s.1.name ∨
      ∃ c, (extractNamesWithCoordinates text words s).1.name = some c ∧
        isValidName c = true) ∧
    ((extractNamesWithCoordinates text words s).1.fatherName = s.1.fatherName ∨
      ∃ c, (extractNamesWithCoordinates text words s).1.fatherName = some c ∧
        isValidName c = true) := by
  unfold extractNamesWithCoordinates
  cases h : nameStrat1 (nameLines text) with
  | none =>
    obtain ⟨e1, e2, e3, e4, e5, e6, e7, e8, e9, e10⟩ :=
      fatherStrat_fields words (nameLines text) s
    exact ⟨e2, e3, e4, e5, e6, e7, e8, e9, Or.inl e1, e10⟩
  | some c =>
    obtain ⟨e1, e2, e3, e4, e5, e6, e7, e8, e9, e10⟩ :=
      fatherStrat_fields words (nameLines text)
        ({ s.1 with name := some c }, s.2 ++ findTextCoordinates c words true)
    refine ⟨by simpa using e2, by simpa using e3, by simpa using e4,
      by simpa using e5, by simpa using e6, by simpa using e7,
      by simpa using e8, by simpa using e9, ?_, ?_⟩
    · exact Or.inr ⟨c, by simpa using e1, nameStrat1_valid _ c h⟩
    · rcases e10 with h10 | ⟨c', hc', hcv'⟩
      · exact Or.inl (by simpa using h10)
      · exact Or.inr ⟨c', hc', hcv'⟩

theorem extractPhone_fields (text : Str) (words : List Word) (s : PII × List Region) :
    (extractPhoneWithCoordinates text words s).1.name = s.1.name ∧
    (extractPhoneWithCoordinates text words s).1.dob = s.1.dob ∧
    (extractPhoneWithCoordinates text words s).1.aadhaar = s.1.aadhaar ∧
    (extractPhoneWithCoordinates text words s).1.address = s.1.address ∧
    (extractPhoneWithCoordinates text words s).1.email = s.1.email ∧
    (extractPhoneWithCoordinates text words s).1.pan = s.1.pan ∧
    (extractPhoneWithCoordinates text words s).1.fatherName = s.1.fatherName ∧
    (extractPhoneWithCoordinates text words s).1.documentType = s.1.documentType ∧
    (extractPhoneWithCoordinates text words s).1.hasPhoto = s.1.hasPhoto ∧
    ((extractPhoneWithCoordinates text words s).1.phone = s.1.phone ∨
      ∃ p, (extractPhoneWithCoordinates text words s).1.phone = some p ∧
        p ≠ []) := by
  unfold extractPhoneWithCoordinates
  cases h1 : scanFirst phone1At none text with
  | some p =>
    obtain ⟨prev', l', hm⟩ := scanFirst_some _ _ _ h1
    exact ⟨rfl, rfl, rfl, rfl, rfl, rfl, rfl, rfl, rfl,
      Or.inr ⟨p, rfl, phone1At_ne_nil prev' l' p hm⟩⟩
  | none =>
    cases h2 : scanFirst phone2At none text with
    | some p =>
      obtain ⟨prev', l', hm⟩ := scanFirst_some _ _ _ h2
      exact ⟨rfl, rfl, rfl, rfl, rfl, rfl, rfl, rfl, rfl,
        Or.inr ⟨p, rfl, phone2At_ne_nil prev' l' p hm⟩⟩
    | none => simp

theorem addPhotoRegion_pii (s : PII × List Region) : (addPhotoRegion s).1 = s.1 := by
  unfold addPhotoRegion
  split <;> rfl

theorem isValidName_ne_nil (c : Str) (h : isValidName c = true) : c ≠ [] := by
  rintro rfl
  simp [isValidName] at h

/-- What one extraction pass guarantees about the returned record when
the recognized text is non-empty. -/
theorem processImage_fields (text : Str) (words : List Word)
    (h : ¬(jsTrim text).isEmpty = true) :
    (processImage text words).1.hasPhoto = true ∧
    (∃ d, (processImage text words).1.documentType = some d ∧ d ≠ []) ∧
    (processImage text words).1.address = none ∧
    (processImage text words).1.email = none ∧
    (processImage text words).1.aadhaar = (digitRuns text).find? aadhaarPred ∧
    (processImage text words).1.pan = scanFirst panAt none text ∧
    (∀ d, (processImage text words).1.dob = some d → d ≠ []) ∧
    (∀ n, (processImage text words).1.name = some n → n ≠ []) ∧
    (∀ n, (processImage text words).1.fatherName = some n → n ≠ []) ∧
    (∀ p, (processImage text words).1.phone = some p → p ≠ []) := by
  unfold processImage
  rw [if_neg h]
  unfold extractPIIWithCoordinates
  set S1 : PII × List Region := (detectDocumentType text getEmptyPII, []) with hS1
  set S2 := extractDOBWithCoordinates text words S1 with hS2
  set S3 := extractAadhaarWithCoordinates text words S2 with hS3
  set S4 := extractPANWithCoordinates text words S3 with hS4
  set S5 := extractNamesWithCoordinates text words S4 with hS5
  set S6 := extractPhoneWithCoordinates text words S5 with hS6
  obtain ⟨dName, dDob, dAad, dAddr, dPhone, dEmail, dPan, dFather, dPhoto,
    dty, hdty, hdtyne⟩ := detectDocumentType_fields text getEmptyPII
  have hb := extractDOB_fields text words S1
  rw [← hS2] at hb
  obtain ⟨bName, bAad, bAddr, bPhone, bEmail, bPan, bFather, bDoc, bPhoto, bDob⟩ := hb
  have ha := extractAadhaar_fields text words S2
  rw [← hS3] at ha
  obtain ⟨aName, aDob, aAddr, aPhone, aEmail, aPan, aFather, aDoc, aPhoto, aAad⟩ := ha
  have hp := extractPAN_fields text words S3
  rw [← hS4] at hp
  obtain ⟨pName, pDob, pAad, pAddr, pPhone, pEmail, pFather, pDoc, pPhoto, pPan⟩ := hp
  have hn := extractNames_fields text words S4
  rw [← hS5] at hn
  obtain ⟨nDob, nAad, nAddr, nPhone, nEmail, nPan, nDoc, nPhoto, nName, nFather⟩ := hn
  have hf := extractPhone_fields text words S5
  rw [← hS6] at hf
  obtain ⟨fName, fDob, fAad, fAddr, fEmail, fPan, fFather, fDoc, fPhoto, fPhone⟩ := hf
  have hS1pii : S1.1 = detectDocumentType text getEmptyPII := by rw [hS1]
  have htop : (addPhotoRegion S6).1 = S6.1 := addPhotoRegion_pii S6
  rw [htop]
  have hS1name : S1.1.name = none := by rw [hS1pii, dName]; rfl
  have hS1dob : S1.1.dob = none := by rw [hS1pii, dDob]; rfl
  have hS1aad : S1.1.aadhaar = none := by rw [hS1pii, dAad]; rfl
  have hS1addr : S1.1.address = none := by rw [hS1pii, dAddr]; rfl
  have hS1phone : S1.1.phone = none := by rw [hS1pii, dPhone]; rfl
  have hS1email : S1.1.email = none := by rw [hS1pii, dEmail]; rfl
  have hS1pan : S1.1.pan = none := by rw [hS1pii, dPan]; rfl
  have hS1father : S1.1.fatherName = none := by rw [hS1pii, dFather]; rfl
  refine ⟨?_, ?_, ?_, ?_, ?_, ?_, ?_, ?_, ?_, ?_⟩
  · rw [fPhoto, nPhoto, pPhoto, aPhoto, bPhoto, hS1pii, dPhoto]
  · exact ⟨dty, by rw [fDoc, nDoc, pDoc, aDoc, bDoc, hS1pii, hdty], hdtyne⟩
  · rw [fAddr, nAddr, pAddr, aAddr, bAddr, hS1addr]
  · rw [fEmail, nEmail, pEmail, aEmail, bEmail, hS1email]
  · rw [fAad, nAad, pAad, aAad, bAad, hS1aad]
    cases hfind : (digitRuns text).find? aadhaarPred <;> simp
  · rw [fPan, nPan, pPan]
    rw [aPan, bPan, hS1pan] at pPan ⊢
    cases hscan : scanFirst panAt none text <;> simp
  · intro d hd
    rw [fDob, nDob, pDob, aDob] at hd
    rcases bDob with hb0 | ⟨d', hd', hd'ne⟩
    · rw [hb0, hS1dob] at hd; cases hd
    · rw [hd'] at hd
      obtain rfl := Option.some.inj hd
      exact hd'ne
  · intro n hn0
    rw [fName] at hn0
    rcases nName with hn1 | ⟨c, hc, hcv⟩
    · rw [hn1, pName, aName, bName, hS1name] at hn0; cases hn0
    · rw [hc] at hn0
      obtain rfl := Option.some.inj hn0
      exact isValidName_ne_nil _ hcv
  · intro n hn0
    rw [fFather] at hn0
    rcases nFather with hn1 | ⟨c, hc, hcv⟩
    · rw [hn1, pFather, aFather, bFather, hS1father] at hn0; cases hn0
    · rw [hc] at hn0
      obtain rfl := Option.some.inj hn0
      exact isValidName_ne_nil _ hcv
  · intro p hp0
    rcases fPhone with hp1 | ⟨p', hp', hp'ne⟩
    · rw [hp1, nPhone, pPhone, aPhone, bPhone, hS1phone] at hp0; cases hp0
    · rw [hp'] at hp0
      obtain rfl := Option.some.inj hp0
      exact hp'ne

/-- When the record satisfies the invariants of an extraction pass, the
reported entry count is the spec's eight-field count plus two: the
always-set `documentType` entry and the boolean `hasPhoto` entry (a
boolean passes the `v !== null && v !== ''` filter whatever its value). -/
theorem foundPIICount_eq (p : PII)
    (hphoto : p.hasPhoto = true)
    (hdoc : ∃ d, p.documentType = some d ∧ d ≠ [])
    (haddr : p.address = none) (hemail : p.email = none)
    (hname : ∀ x, p.name = some x → x ≠ [])
    (hdob : ∀ x, p.dob = some x → x ≠ [])
    (haad : ∀ x, p.aadhaar = some x → x ≠ [])
    (hpan : ∀ x, p.pan = some x → x ≠ [])
    (hfather : ∀ x, p.fatherName = some x → x ≠ [])
    (hphone : ∀ x, p.phone = some x → x ≠ []) :
    foundPIICount p = 2 + specPiiFieldCount p := by
  have jf : ∀ o : Option Str, (∀ x, o = some x → x ≠ []) →
      jsFound (jsOfOpt o) = o.isSome := by
    intro o ho
    cases o with
    | none => rfl
    | some x =>
      simp [jsFound, jsOfOpt, List.isEmpty_iff, ho x rfl]
  obtain ⟨d, hd, hdne⟩ := hdoc
  simp only [foundPIICount, piiEntries, specPiiFieldCount, List.countP_cons,
    List.countP_nil, hd, haddr, hemail, hphoto]
  rw [jf _ hname, jf _ hdob, jf _ haad, jf _ hpan, jf _ hfather, jf _ hphone]
  have hdfound : jsFound (jsOfOpt (some d)) = true := by
    simp [jsFound, jsOfOpt, List.isEmpty_iff, hdne]
  have hbool : jsFound (JSVal.boolv true) = true := rfl
  have hnone : jsFound (jsOfOpt none) = false := rfl
  rw [hdfound, hbool, hnone]
  simp only [Option.isSome_none, Bool.false_eq_true, if_false, if_true]
  split_ifs <;> omega

/-- An emitted (padded, clamped) overlay fits inside `[0, imgW) × [0, imgH)`
with strictly positive sides. -/
theorem clampMaskRegion_some_bounds (imgW imgH : Int) (coord r : Region)
    (h : clampMaskRegion imgW imgH coord = some r) :
    0 ≤ r.left ∧ 0 ≤ r.top ∧ 0 < r.width ∧ 0 < r.height ∧
      r.left + r.width ≤ imgW ∧ r.top + r.height ≤ imgH := by
  unfold clampMaskRegion at h
  split at h
  · next hc =>
    obtain rfl := Option.some.inj h
    dsimp only
    simp only [Bool.and_eq_true, decide_eq_true_eq] at hc
    obtain ⟨hw, hh⟩ := hc
    have hL : (0 : Int) ≤ max 0 (coord.left - 10) := le_max_left 0 _
    have hT : (0 : Int) ≤ max 0 (coord.top - 10) := le_max_left 0 _
    have hWle : min (imgW - max 0 (coord.left - 10)) (coord.width + 20) ≤
        imgW - max 0 (coord.left - 10) := min_le_left _ _
    have hHle : min (imgH - max 0 (coord.top - 10)) (coord.height + 20) ≤
        imgH - max 0 (coord.top - 10) := min_le_left _ _
    refine ⟨hL, hT, hw, hh, ?_, ?_⟩ <;> omega
  · cases h

/-- A region is dropped by the aggregator precisely when its padded,
clamped width or height is non-positive. -/
theorem clampMaskRegion_none_cond (imgW imgH : Int) (coord : Region)
    (h : clampMaskRegion imgW imgH coord = none) :
    min (imgW - max 0 (coord.left - 10)) (coord.width + 20) ≤ 0 ∨
      min (imgH - max 0 (coord.top - 10)) (coord.height + 20) ≤ 0 := by
  unfold clampMaskRegion at h
  split at h
  · cases h
  · next hc =>
    simp only [Bool.and_eq_true, decide_eq_true_eq, not_and_or, not_lt] at hc
    exact hc

/-- The merged rectangle of a word run is exactly the union of the run's
boxes: it encloses every box, and each of its four sides is realised by
some box in the run. -/
theorem mergedRegion_bounds (w : Word) (ms : List Word) :
    (∀ v ∈ w :: ms,
      (mergedRegion w ms).left ≤ v.bbox.x0 ∧ (mergedRegion w ms).top ≤ v.bbox.y0 ∧
      v.bbox.x1 ≤ (mergedRegion w ms).left + (mergedRegion w ms).width ∧
      v.bbox.y1 ≤ (mergedRegion w ms).top + (mergedRegion w ms).height) ∧
    (∃ v ∈ w :: ms, (mergedRegion w ms).left = v.bbox.x0) ∧
    (∃ v ∈ w :: ms, (mergedRegion w ms).top = v.bbox.y0) ∧
    (∃ v ∈ w :: ms, (mergedRegion w ms).left + (mergedRegion w ms).width = v.bbox.x1) ∧
    (∃ v ∈ w :: ms, (mergedRegion w ms).top + (mergedRegion w ms).height = v.bbox.y1) := by
  have hl : (mergedRegion w ms).left =
      (((w :: ms).map fun v => v.bbox.x0).foldl min w.bbox.x0) := by
    simp [mergedRegion]
  have ht : (mergedRegion w ms).top =
      (((w :: ms).map fun v => v.bbox.y0).foldl min w.bbox.y0) := by
    simp [mergedRegion]
  have hlw : (mergedRegion w ms).left + (mergedRegion w ms).width =
      (((w :: ms).map fun v => v.bbox.x1).foldl max w.bbox.x1) := by
    simp [mergedRegion]
  have hth : (mergedRegion w ms).top + (mergedRegion w ms).height =
      (((w :: ms).map fun v => v.bbox.y1).foldl max w.bbox.y1) := by
    simp [mergedRegion]
  refine ⟨?_, ?_, ?_, ?_, ?_⟩
  · intro v hv
    refine ⟨?_, ?_, ?_, ?_⟩
    · rw [hl]
      exact (foldlMinLe _ _).2 _ (List.mem_map_of_mem _ hv)
    · rw [ht]
      exact (foldlMinLe _ _).2 _ (List.mem_map_of_mem _ hv)
    · rw [hlw]
      exact (foldlMaxLe _ _).2 _ (List.mem_map_of_mem _ hv)
    · rw [hth]
      exact (foldlMaxLe _ _).2 _ (List.mem_map_of_mem _ hv)
  · rw [hl]
    rcases foldlMinMem w.bbox.x0 ((w :: ms).map fun v => v.bbox.x0) with h | h
    · exact ⟨w, by simp, h⟩
    · obtain ⟨v, hv, hequ⟩ := List.mem_map.mp h
      exact ⟨v, hv, hequ.symm⟩
  · rw [ht]
    rcases foldlMinMem w.bbox.y0 ((w :: ms).map fun v => v.bbox.y0) with h | h
    · exact ⟨w, by simp, h⟩
    · obtain ⟨v, hv, hequ⟩ := List.mem_map.mp h
      exact ⟨v, hv, hequ.symm⟩
  · rw [hlw]
    rcases foldlMaxMem w.bbox.x1 ((w :: ms).map fun v => v.bbox.x1) with h | h
    · exact ⟨w, by simp, h⟩
    · obtain ⟨v, hv, hequ⟩ := List.mem_map.mp h
      exact ⟨v, hv, hequ.symm⟩
  · rw [hth]
    rcases foldlMaxMem w.bbox.y1 ((w :: ms).map fun v => v.bbox.y1) with h | h
    · exact ⟨w, by simp, h⟩
    · obtain ⟨v, hv, hequ⟩ := List.mem_map.mp h
      exact ⟨v, hv, hequ.symm⟩

/-! ## Claim theorems -/

/-- C3: for every input document whose recognized text is empty or
whitespace-only, processing returns the empty PIIRecord (all extraction
fields `none`, `hasPhoto` false) and an empty mask-region list — the
short-circuit runs before any extractor, so no partial extraction is
attempted.  Determinism and idempotence across repeated invocations are
inherent: `processImage` is a pure function of its arguments. -/
theorem c3_emptyText_degenerate (text : Str) (words : List Word)
    (h : text.all isWs = true) :
    processImage text words = (getEmptyPII, []) ∧
    (processImage text words).1.name = none ∧
    (processImage text words).1.dob = none ∧
    (processImage text words).1.aadhaar = none ∧
    (processImage text words).1.address = none ∧
    (processImage text words).1.phone = none ∧
    (processImage text words).1.email = none ∧
    (processImage text words).1.pan = none ∧
    (processImage text words).1.fatherName = none ∧
    (processImage text words).1.documentType = none ∧
    (processImage text words).1.hasPhoto = false ∧
    (processImage text words).2 = [] := by
  have ht : (jsTrim text).isEmpty = true := by
    rw [jsTrim_of_allWs text h]
    rfl
  unfold processImage
  rw [if_pos ht]
  exact ⟨rfl, rfl, rfl, rfl, rfl, rfl, rfl, rfl, rfl, rfl, rfl, rfl⟩

/-- Witness for C3 at the whitespace-only text `"  \n "`. -/
theorem c3_emptyText_degenerate_witness :
    processImage "  \n ".data [] = (getEmptyPII, []) ∧
    (processImage "  \n ".data []).1.name = none ∧
    (processImage "  \n ".data []).1.dob = none ∧
    (processImage "  \n ".data []).1.aadhaar = none ∧
    (processImage "  \n ".data []).1.address = none ∧
    (processImage "  \n ".data []).1.phone = none ∧
    (processImage "  \n ".data []).1.email = none ∧
    (processImage "  \n ".data []).1.pan = none ∧
    (processImage "  \n ".data []).1.fatherName = none ∧
    (processImage "  \n ".data []).1.documentType = none ∧
    (processImage "  \n ".data []).1.hasPhoto = false ∧
    (processImage "  \n ".data []).2 = [] :=
  c3_emptyText_degenerate "  \n ".data [] (by decide)

/-- C5: every emitted mask region, after padding by 10 pixels, is clamped
into `[0, imageWidth) × [0, imageHeight)` with strictly positive width and
height; a region partially outside is truncated by the `min`/`max` clamp,
and a region whose padded clamped width or height is not strictly
positive is dropped rather than emitted. -/
theorem c5_region_clamping (imgW imgH : Int) :
    (∀ coord r, clampMaskRegion imgW imgH coord = some r →
        0 ≤ r.left ∧ 0 ≤ r.top ∧ 0 < r.width ∧ 0 < r.height ∧
        r.left + r.width ≤ imgW ∧ r.top + r.height ≤ imgH) ∧
    (∀ coord, clampMaskRegion imgW imgH coord = none →
        min (imgW - max 0 (coord.left - 10)) (coord.width + 20) ≤ 0 ∨
        min (imgH - max 0 (coord.top - 10)) (coord.height + 20) ≤ 0) ∧
    (∀ (coords : List Region) r, r ∈ maskOverlays imgW imgH coords →
        0 ≤ r.left ∧ 0 ≤ r.top ∧ 0 < r.width ∧ 0 < r.height ∧
        r.left + r.width ≤ imgW ∧ r.top + r.height ≤ imgH) := by
  refine ⟨fun coord r h => clampMaskRegion_some_bounds imgW imgH coord r h,
    fun coord h => clampMaskRegion_none_cond imgW imgH coord h, ?_⟩
  intro coords r hr
  obtain ⟨coord, _, hc⟩ := List.mem_filterMap.mp hr
  exact clampMaskRegion_some_bounds imgW imgH coord r hc

/-- Witness for C5: a 20×20 region at (95,95) on a 100×100 image is
truncated to the emitted overlay (85,85,15,15), and a region fully right
of the image is dropped with a non-positive clamped width. -/
theorem c5_region_clamping_witness :
    (0 ≤ (85 : Int) ∧ 0 ≤ (85 : Int) ∧ 0 < (15 : Int) ∧ 0 < (15 : Int) ∧
      (85 : Int) + 15 ≤ 100 ∧ (85 : Int) + 15 ≤ 100) ∧
    (min ((100 : Int) - max 0 (300 - 10)) (20 + 20) ≤ 0 ∨
      min ((100 : Int) - max 0 (95 - 10)) (20 + 20) ≤ 0) :=
  ⟨(c5_region_clamping 100 100).1 ⟨95, 95, 20, 20, false⟩ ⟨85, 85, 15, 15, false⟩
      (by decide),
    (c5_region_clamping 100 100).2.1 ⟨300, 95, 20, 20, false⟩ (by decide)⟩

theorem fuzzyAccept_iff (t : Str) (w : Word) :
    fuzzyAccept t w = true ↔
      2 < w.text.length ∧
        ((∃ pre suf, (lowerStr w.text).filter isWordCh =
            pre ++ (lowerStr t).filter isWordCh ++ suf) ∨
          (∃ pre suf, (lowerStr t).filter isWordCh =
            pre ++ (lowerStr w.text).filter isWordCh ++ suf) ∨
          levenshteinDistance ((lowerStr w.text).filter isWordCh)
            ((lowerStr t).filter isWordCh) ≤ 2) := by
  simp only [fuzzyAccept, Bool.and_eq_true, Bool.or_eq_true, decide_eq_true_eq,
    hasInfix_iff, gt_iff_lt]
  rw [or_assoc]

/-- C7: the document classifier checks the keyword sets in order — tax-ID
indicators first, then national-ID indicators, then driving-license
indicators — with the first match deciding the type, and any text that
matches none of them classifies as the `Government ID` fallback with
`hasPhoto = true`.  The last two conjuncts exhibit the ordering on texts
containing keywords of two sets at once. -/
theorem c7_classifier_order :
    (∀ text pii,
        (hasInfix (lowerStr text) "income tax".data = true ∨
          hasInfix (lowerStr text) "permanent account".data = true) →
        (detectDocumentType text pii).documentType = some "PAN Card".data ∧
          (detectDocumentType text pii).hasPhoto = true) ∧
    (∀ text pii,
        hasInfix (lowerStr text) "income tax".data = false →
        hasInfix (lowerStr text) "permanent account".data = false →
        (hasInfix (lowerStr text) "aadhaar".data = true ∨
          hasInfix (lowerStr text) "आधार".data = true ∨
          hasInfix (lowerStr text) "uidai".data = true) →
        (detectDocumentType text pii).documentType = some "Aadhaar Card".data ∧
          (detectDocumentType text pii).hasPhoto = true) ∧
    (∀ text pii,
        hasInfix (lowerStr text) "income tax".data = false →
        hasInfix (lowerStr text) "permanent account".data = false →
        hasInfix (lowerStr text) "aadhaar".data = false →
        hasInfix (lowerStr text) "आधार".data = false →
        hasInfix (lowerStr text) "uidai".data = false →
        (hasInfix (lowerStr text) "driving licence".data = true ∨
          hasInfix (lowerStr text) "transport".data = true) →
        (detectDocumentType text pii).documentType = some "Driving License".data ∧
          (detectDocumentType text pii).hasPhoto = true) ∧
    (∀ text pii,
        hasInfix (lowerStr text) "income tax".data = false →
        hasInfix (lowerStr text) "permanent account".data = false →
        hasInfix (lowerStr text) "aadhaar".data = false →
        hasInfix (lowerStr text) "आधार".data = false →
        hasInfix (lowerStr text) "uidai".data = false →
        hasInfix (lowerStr text) "driving licence".data = false →
        hasInfix (lowerStr text) "transport".data = false →
        (detectDocumentType text pii).documentType = some "Government ID".data ∧
          (detectDocumentType text pii).hasPhoto = true) ∧
    (detectDocumentType "aadhaar income tax".data getEmptyPII).documentType =
      some "PAN Card".data ∧
    (detectDocumentType "transport aadhaar card".data getEmptyPII).documentType =
      some "Aadhaar Card".data := by
  refine ⟨?_, ?_, ?_, ?_, by decide, by decide⟩
  · intro text pii hk
    rcases hk with hk | hk <;> simp [detectDocumentType, hk]
  · intro text pii h1 h2 hk
    rcases hk with hk | hk | hk <;> simp [detectDocumentType, h1, h2, hk]
  · intro text pii h1 h2 h3 h4 h5 hk
    rcases hk with hk | hk <;> simp [detectDocumentType, h1, h2, h3, h4, h5, hk]
  · intro text pii h1 h2 h3 h4 h5 h6 h7
    simp [detectDocumentType, h1, h2, h3, h4, h5, h6, h7]

/-- Witness for C7: the default branch on a keyword-free text and the
PAN branch on a text containing a tax keyword. -/
theorem c7_classifier_order_witness :
    ((detectDocumentType "hello".data getEmptyPII).documentType =
        some "Government ID".data ∧
      (detectDocumentType "hello".data getEmptyPII).hasPhoto = true) ∧
    ((detectDocumentType "income tax dept".data getEmptyPII).documentType =
        some "PAN Card".data ∧
      (detectDocumentType "income tax dept".data getEmptyPII).hasPhoto = true) :=
  ⟨c7_classifier_order.2.2.2.1 "hello".data getEmptyPII (by decide) (by decide)
      (by decide) (by decide) (by decide) (by decide) (by decide),
    c7_classifier_order.1 "income tax dept".data getEmptyPII (Or.inl (by decide))⟩

/-- C4: a word is accepted by fuzzy-mode resolution exactly when its raw
length exceeds 2 and its punctuation-stripped lowercase text contains the
stripped lowercase target, or is contained in it, or is within
Levenshtein distance 2 of it; every accepted word contributes its own box
individually.  In particular `"raxysh"` (exactly 2 character
substitutions from the target `"ramesh"`) is accepted, `"raxyzh"`
(3 substitutions, edit distance 3) is rejected, and two accepted words
yield two separate boxes rather than one merged box. -/
theorem c4_fuzzy_acceptance :
    (∀ (searchText : Str) (words : List Word) (r : Region),
        r ∈ findTextCoordinates searchText words true ↔
          ∃ w ∈ words,
            (2 < w.text.length ∧
              ((∃ pre suf, (lowerStr w.text).filter isWordCh =
                  pre ++ (lowerStr searchText).filter isWordCh ++ suf) ∨
                (∃ pre suf, (lowerStr searchText).filter isWordCh =
                  pre ++ (lowerStr w.text).filter isWordCh ++ suf) ∨
                levenshteinDistance ((lowerStr w.text).filter isWordCh)
                  ((lowerStr searchText).filter isWordCh) ≤ 2)) ∧
            r = regionOfBox w.bbox) ∧
    fuzzyAccept "ramesh".data ⟨"raxysh".data, ⟨0, 0, 9, 9⟩⟩ = true ∧
    fuzzyAccept "ramesh".data ⟨"raxyzh".data, ⟨0, 0, 9, 9⟩⟩ = false ∧
    findTextCoordinates "ramesh".data
        [⟨"ramesh".data, ⟨5, 6, 40, 20⟩⟩, ⟨"ramesh,".data, ⟨50, 6, 90, 20⟩⟩] true =
      [regionOfBox ⟨5, 6, 40, 20⟩, regionOfBox ⟨50, 6, 90, 20⟩] := by
  refine ⟨?_, by decide, by decide, by decide⟩
  intro searchText words r
  rw [fuzzy_refines]
  simp only [List.mem_map, List.mem_filter]
  constructor
  · rintro ⟨w, ⟨hw, hacc⟩, rfl⟩
    exact ⟨w, hw, (fuzzyAccept_iff searchText w).mp hacc, rfl⟩
  · rintro ⟨w, hw, hacc, rfl⟩
    exact ⟨w, ⟨hw, (fuzzyAccept_iff searchText w).mpr hacc⟩, rfl⟩

/-- Witness for C4: the concrete 2-substitution acceptance. -/
theorem c4_fuzzy_acceptance_witness :
    fuzzyAccept "ramesh".data ⟨"raxysh".data, ⟨0, 0, 9, 9⟩⟩ = true :=
  c4_fuzzy_acceptance.2.1

/-- C8 counterexample: a word whose box is inverted (`x1 < x0`, `y1 < y0`)
is not skipped by coordinate resolution — it matches like any other word
and contributes its raw (negative-size) box — and after padding the
aggregator still emits a mask region for it, because the inversion is
smaller than twice the padding. -/
theorem c8_malformedBox_counterexample :
    findTextCoordinates "ramesh".data [⟨"ramesh".data, ⟨100, 10, 95, 5⟩⟩] true =
      [{ left := 100, top := 10, width := -5, height := -5, photo := false }] ∧
    maskOverlays 500 500
        [{ left := 100, top := 10, width := -5, height := -5, photo := false }] =
      [{ left := 90, top := 0, width := 15, height := 15, photo := false }] :=
  ⟨by decide, by decide⟩

/-- C8 amended: coordinate resolution performs no validity check on word
boxes.  Fuzzy acceptance is a function of the word's text only (every
accepted word's raw box is emitted unchanged), exact-mode matching also
reads only the texts, and resolution is total — a malformed box never
aborts a request.  A region is discarded only later, by the aggregator's
clamp, exactly when its padded clamped width or height is non-positive;
a slightly inverted box (inversion < 2 × padding) still produces an
emitted mask region. -/
theorem c8_malformedBox_amended :
    (∀ (searchText : Str) (words : List Word),
        findTextCoordinates searchText words true =
          (words.filter fun w => fuzzyTextAccept searchText w.text).map
            fun w => regionOfBox w.bbox) ∧
    (∀ (searchText : Str) (ws ws' : List Word),
        ws.map Word.text = ws'.map Word.text →
        (findTextCoordinates searchText ws false).length =
          (findTextCoordinates searchText ws' false).length) ∧
    (∀ (imgW imgH : Int) (coord : Region),
        clampMaskRegion imgW imgH coord = none →
          min (imgW - max 0 (coord.left - 10)) (coord.width + 20) ≤ 0 ∨
          min (imgH - max 0 (coord.top - 10)) (coord.height + 20) ≤ 0) := by
  refine ⟨?_, ?_, fun imgW imgH coord h => clampMaskRegion_none_cond imgW imgH coord h⟩
  · intro searchText words
    rw [fuzzy_refines]
    have hfn : fuzzyAccept searchText = fun w => fuzzyTextAccept searchText w.text :=
      funext fun w => rfl
    rw [hfn]
  · intro searchText ws ws' hmap
    unfold findTextCoordinates
    simp only [if_false, Bool.false_eq_true]
    cases jsSplitWs (lowerStr searchText) with
    | nil => rfl
    | cons t0 ts => exact exactScan_textOnly t0 ts ws ws' hmap

/-- Witness for C8's amended statement: the clamp-drop condition at a
region whose inverted box exceeds twice the padding. -/
theorem c8_malformedBox_amended_witness :
    min ((500 : Int) - max 0 (100 - 10)) (-50 + 20) ≤ 0 ∨
      min ((500 : Int) - max 0 (10 - 10)) (-50 + 20) ≤ 0 :=
  c8_malformedBox_amended.2.2 500 500 ⟨100, 10, -50, -50, false⟩ (by decide)

/-- C9 counterexample: on the text `"hello world"` (no PII at all) the
reported count of found entries is 2, not the 0 non-null PII fields the
claim predicts — `documentType` (always set by the classifier) and the
boolean `hasPhoto` both pass the `v !== null && v !== ''` filter. -/
theorem c9_count_counterexample :
    foundPIICount (processImage "hello world".data []).1 = 2 ∧
    specPiiFieldCount (processImage "hello world".data []).1 = 0 :=
  ⟨by decide, by decide⟩

/-- C9 amended: for every document with non-empty recognized text, the
count reported to the response layer equals the number of non-null PII
fields among (name, fatherName, dateOfBirth, nationalId, taxId, phone,
email, address) PLUS TWO, because the record's `documentType` entry is
always set by the classifier and the boolean `hasPhoto` entry passes the
`v !== null && v !== ''` filter whatever its value. -/
theorem c9_count_amended (text : Str) (words : List Word)
    (h : ¬(jsTrim text).isEmpty = true) :
    foundPIICount (processImage text words).1 =
      2 + specPiiFieldCount (processImage text words).1 := by
  obtain ⟨h1, h2, h3, h4, h5, h6, h7, h8, h9, h10⟩ := processImage_fields text words h
  refine foundPIICount_eq _ h1 h2 h3 h4 h8 h7 ?_ ?_ h9 h10
  · intro x hx
    rw [h5] at hx
    have hp := List.find?_some hx
    simp only [aadhaarPred, Bool.and_eq_true, decide_eq_true_eq] at hp
    intro he
    rw [he] at hp
    simp at hp
  · intro x hx
    rw [h6] at hx
    obtain ⟨prev', l', hm⟩ := scanFirst_some _ _ _ hx
    rw [panAt_some_iff] at hm
    obtain ⟨_, hshape, _, hx10⟩ := hm
    have hlen := panShape_length _ hshape
    intro he
    rw [← hx10, he] at hlen
    simp at hlen

/-- Witness for C9's amended statement on a non-empty text. -/
theorem c9_count_amended_witness :
    foundPIICount (processImage "government of india".data []).1 =
      2 + specPiiFieldCount (processImage "government of india".data []).1 :=
  c9_count_amended "government of india".data [] (by decide)

/-- C6 counterexample: the source PAN regex has no `i` flag, so the
lowercase occurrence `"abcde1234f"` — which the claimed case-insensitive
extractor (`specTaxIdExtract`, modelled on the specification's words)
does match — is NOT matched by the code and the tax-ID field stays null,
contradicting the claim. -/
theorem c6_taxId_counterexample :
    specTaxIdExtract "abcde1234f".data = some "abcde1234f".data ∧
    (processImage "abcde1234f".data []).1.pan = none :=
  ⟨by decide, by decide⟩

/-- C6 amended: the tax-ID extractor uses the single case-SENSITIVE
regex `\b[A-Z]{5}\d{4}[A-Z]\b` (5 uppercase letters, 4 digits, 1
uppercase letter between word boundaries), no checksum, and sets the
field to the first (leftmost) such match; a lowercase occurrence is not
matched (see the counterexample), while uppercase occurrences are, the
leftmost winning. -/
theorem c6_taxId_amended :
    (∀ text p, scanFirst panAt none text = some p →
        p.length = 10 ∧ (∀ c ∈ p.take 5, c.isUpper = true) ∧
        (∀ c ∈ (p.drop 5).take 4, c.isDigit = true) ∧
        (∀ c ∈ p.drop 9, c.isUpper = true) ∧
        ∃ pre suf, text = pre ++ p ++ suf ∧
          (∀ c, pre.getLast? = some c → isWordCh c = false) ∧
          (∀ c, suf.head? = some c → isWordCh c = false) ∧
          ∀ pre' p' suf', text = pre' ++ p' ++ suf' → panShape p' = true →
            (∀ c, pre'.getLast? = some c → isWordCh c = false) →
            (∀ c, suf'.head? = some c → isWordCh c = false) →
            pre.length ≤ pre'.length) ∧
    (∀ text words s, (extractPANWithCoordinates text words s).1.pan =
        match scanFirst panAt none text with
        | none => s.1.pan
        | some p => some p) ∧
    (processImage "ABCDE1234F".data []).1.pan = some "ABCDE1234F".data ∧
    (processImage "ZZZZZ9999Z and ABCDE1234F".data []).1.pan =
      some "ZZZZZ9999Z".data := by
  refine ⟨?_, ?_, by decide, by decide⟩
  · intro text p h
    obtain ⟨pre, suf, heq, hshape, hpre, hsuf, hmin⟩ :=
      scanFirst_panAt_sound text none p h
    have hlast : ∀ q : Str, lastOr none q = q.getLast? := by
      intro q
      cases hq : q.getLast? <;> simp [lastOr, hq]
    have hshape' := hshape
    simp only [panShape, Bool.and_eq_true, decide_eq_true_eq,
      List.all_eq_true] at hshape'
    obtain ⟨⟨⟨hlen, h5⟩, h4⟩, h1⟩ := hshape'
    refine ⟨hlen, h5, h4, h1, pre, suf, heq, ?_, hsuf, ?_⟩
    · intro c hc
      refine hpre c ?_
      rw [hlast]
      exact hc
    · intro pre' p' suf' he hs hp hs'
      refine hmin pre' p' suf' he hs ?_ hs'
      intro c hc
      refine hp c ?_
      rw [← hlast]
      exact hc
  · intro text words s
    obtain ⟨_, _, _, _, _, _, _, _, _, hpan⟩ := extractPAN_fields text words s
    exact hpan

/-- Witness for C6's amended statement: the uppercase occurrence is
extracted end to end. -/
theorem c6_taxId_amended_witness :
    (processImage "ABCDE1234F".data []).1.pan = some "ABCDE1234F".data :=
  c6_taxId_amended.2.2.1

/-- C1 counterexample: on the 15-digit text `"234567890123456"`, the
procedure the claim describes (strip non-digits, then scan for any
12-digit substring whose first digit is neither 0 nor 1 — modelled by
`specNationalIdExtract`) accepts `"234567890123"`, but the code finds no
national ID: it only considers maximal digit runs of length exactly 12,
and this text's single run has length 15. -/
theorem c1_nationalId_counterexample :
    specNationalIdExtract "234567890123456".data = some "234567890123".data ∧
    (processImage "234567890123456".data []).1.aadhaar = none :=
  ⟨by decide, by decide⟩

/-- C1 amended: the national-ID extractor splits the text into MAXIMAL
digit runs (every non-digit character, whitespace included, separates
runs) and sets the field to the first run of length exactly 12 whose
first digit is neither '0' nor '1'; every accepted value is such a
boundary-delimited 12-digit run of the text, and all earlier runs fail
the validity test.  Candidates whose first digit is '0' or '1' are never
accepted — this half of the original claim holds unchanged. -/
theorem c1_nationalId_amended (text : Str) (words : List Word)
    (h : ¬(jsTrim text).isEmpty = true) :
    (processImage text words).1.aadhaar = (digitRuns text).find? aadhaarPred ∧
    ∀ r, (processImage text words).1.aadhaar = some r →
      r.length = 12 ∧ r.all Char.isDigit = true ∧
      r.head? ≠ some '0' ∧ r.head? ≠ some '1' ∧
      (∃ pre suf, text = pre ++ r ++ suf ∧
        (∀ c, pre.getLast? = some c → c.isDigit = false) ∧
        (∀ c, suf.head? = some c → c.isDigit = false)) ∧
      ∃ l1 l2, digitRuns text = l1 ++ r :: l2 ∧
        ∀ x ∈ l1, aadhaarPred x = false := by
  obtain ⟨_, _, _, _, h5, _, _, _, _, _⟩ := processImage_fields text words h
  refine ⟨h5, ?_⟩
  intro r hr
  rw [h5] at hr
  obtain ⟨hpred, l1, l2, hdec, hl1⟩ := findQdecomp aadhaarPred (digitRuns text) r hr
  have hmem : r ∈ digitRuns text := by
    rw [hdec]
    simp
  obtain ⟨hne, hall, pre, suf, heq, hpre, hsuf⟩ :=
    digitRuns_sound text.length text le_rfl r hmem
  simp only [aadhaarPred, isValidAadhaar, Bool.and_eq_true,
    decide_eq_true_eq] at hpred
  obtain ⟨hlen, ⟨⟨_, _⟩, h0⟩, h1⟩ := hpred
  exact ⟨hlen, hall, h0, h1, ⟨pre, suf, heq, hpre, hsuf⟩, l1, l2, hdec, hl1⟩

/-- Witness for C1's amended statement on a text whose single run is a
valid 12-digit national ID. -/
theorem c1_nationalId_amended_witness :
    (processImage "234567890123".data []).1.aadhaar =
      (digitRuns "234567890123".data).find? aadhaarPred :=
  (c1_nationalId_amended "234567890123".data [] (by decide)).1

/-- C2 counterexample: for the target `"1234 1234 1234"` split across 3
adjacent words, the exact resolver does NOT return one merged rectangle:
because the first token also occurs in the later words, the outer loop
(which always advances by one) emits three rectangles, one per starting
position. -/
theorem c2_exact_counterexample :
    (findTextCoordinates "1234 1234 1234".data
        [⟨"1234".data, ⟨0, 0, 10, 10⟩⟩, ⟨"1234".data, ⟨20, 0, 30, 10⟩⟩,
          ⟨"1234".data, ⟨40, 0, 50, 10⟩⟩] false).length = 3 := by
  decide

/-- C2 amended: exact-mode resolution is invariant under word
segmentation that preserves token adjacency PROVIDED the first token is
not also contained in a later word of the run: splitting the target
across consecutive words whose texts carry the tokens in order yields
exactly one rectangle, the union of the word boxes — it encloses every
box and each of its sides is realised by one of them.  (When the first
token recurs, additional sub-run rectangles are emitted as well; see the
counterexample.) -/
theorem c2_exact_amended (searchText : Str) (w : Word) (rest : List Word)
    (hsplit : jsSplitWs (lowerStr searchText) =
      (w :: rest).map fun v => lowerStr v.text)
    (hne : ∀ v ∈ w :: rest, ¬v.text.isEmpty)
    (huniq : ∀ v ∈ rest, hasInfix (lowerStr v.text) (lowerStr w.text) = false) :
    findTextCoordinates searchText (w :: rest) false = [mergedRegion w rest] ∧
    (∀ v ∈ w :: rest,
      (mergedRegion w rest).left ≤ v.bbox.x0 ∧
      (mergedRegion w rest).top ≤ v.bbox.y0 ∧
      v.bbox.x1 ≤ (mergedRegion w rest).left + (mergedRegion w rest).width ∧
      v.bbox.y1 ≤ (mergedRegion w rest).top + (mergedRegion w rest).height) ∧
    (∃ v ∈ w :: rest, (mergedRegion w rest).left = v.bbox.x0) ∧
    (∃ v ∈ w :: rest, (mergedRegion w rest).top = v.bbox.y0) ∧
    (∃ v ∈ w :: rest,
      (mergedRegion w rest).left + (mergedRegion w rest).width = v.bbox.x1) ∧
    (∃ v ∈ w :: rest,
      (mergedRegion w rest).top + (mergedRegion w rest).height = v.bbox.y1) := by
  obtain ⟨hb1, hb2, hb3, hb4, hb5⟩ := mergedRegion_bounds w rest
  refine ⟨?_, hb1, hb2, hb3, hb4, hb5⟩
  unfold findTextCoordinates
  rw [if_neg (by simp)]
  rw [hsplit]
  simp only [List.map_cons]
  rw [exactScan_cons]
  have hc : (!w.text.isEmpty && hasInfix (lowerStr w.text) (lowerStr w.text)) = true := by
    simp [hne w (by simp), hasInfix_self]
  rw [hc]
  have htc : tryConfirm (rest.map fun v => lowerStr v.text) rest = some rest := by
    refine tryConfirm_prefixRun rest _ (by simp) ?_
    rw [show (rest.map fun v => lowerStr v.text).take rest.length =
        rest.map fun v => lowerStr v.text by
      rw [← List.length_map rest fun v => lowerStr v.text, List.take_length]]
    rw [List.forall₂_map_right_iff]
    rw [List.forall₂_same]
    intro v hv
    exact ⟨hne v (List.mem_cons_of_mem _ hv), hasInfix_self _⟩
  rw [htc]
  have hrest : exactScan (lowerStr w.text) (rest.map fun v => lowerStr v.text) rest = [] := by
    refine exactScan_nil_of_nohit _ _ rest ?_
    intro v hv
    simp [huniq v hv]
  rw [hrest]
  simp

/-- Witness for C2's amended statement: `"1234 5678 9012"` over three
words yields exactly the one merged rectangle. -/
theorem c2_exact_amended_witness :
    findTextCoordinates "1234 5678 9012".data
        [⟨"1234".data, ⟨0, 0, 10, 10⟩⟩, ⟨"5678".data, ⟨20, 0, 30, 10⟩⟩,
          ⟨"9012".data, ⟨40, 0, 50, 10⟩⟩] false =
      [mergedRegion ⟨"1234".data, ⟨0, 0, 10, 10⟩⟩
        [⟨"5678".data, ⟨20, 0, 30, 10⟩⟩, ⟨"9012".data, ⟨40, 0, 50, 10⟩⟩]] :=
  (c2_exact_amended "1234 5678 9012".data ⟨"1234".data, ⟨0, 0, 10, 10⟩⟩
    [⟨"5678".data, ⟨20, 0, 30, 10⟩⟩, ⟨"9012".data, ⟨40, 0, 50, 10⟩⟩]
    (by decide) (by decide) (by decide)).1

/-- C10: in exact mode with a multi-token target, when the first token
matches so close to the end of the word list that the remaining tokens
cannot all be checked, the confirmation loop stops at the end of the
list with the match flag still true and the match is accepted: the first
emitted rectangle covers exactly the verified prefix of words. -/
theorem c10_boundary_acceptance (searchText t0 : Str) (ts : List Str)
    (w : Word) (rest : List Word)
    (hsplit : jsSplitWs (lowerStr searchText) = t0 :: ts)
    (hlen : (w :: rest).length < (t0 :: ts).length)
    (h0 : ¬w.text.isEmpty ∧ hasInfix (lowerStr w.text) t0 = true)
    (hrun : List.Forall₂
      (fun v t => ¬v.text.isEmpty ∧ hasInfix (lowerStr v.text) t = true)
      rest (ts.take rest.length)) :
    (findTextCoordinates searchText (w :: rest) false).head? =
      some (mergedRegion w rest) := by
  unfold findTextCoordinates
  rw [if_neg (by simp)]
  rw [hsplit]
  simp only []
  rw [exactScan_cons]
  have hc : (!w.text.isEmpty && hasInfix (lowerStr w.text) t0) = true := by
    simp [h0.1, h0.2]
  rw [hc]
  have hle : rest.length ≤ ts.length := Nat.le_of_lt (by simpa using hlen)
  rw [tryConfirm_prefixRun rest ts hle hrun]
  simp

/-- Witness for C10: target `"1234 5678"` against a single-word list —
the second token can never be checked, yet the match is accepted and the
rectangle covers the one verified word. -/
theorem c10_boundary_acceptance_witness :
    (findTextCoordinates "1234 5678".data [⟨"1234x".data, ⟨3, 4, 11, 12⟩⟩]
        false).head? =
      some (mergedRegion ⟨"1234x".data, ⟨3, 4, 11, 12⟩⟩ []) :=
  c10_boundary_acceptance "1234 5678".data "1234".data ["5678".data]
    ⟨"1234x".data, ⟨3, 4, 11, 12⟩⟩ [] (by decide) (by decide)
    ⟨by decide, by decide⟩ (by simp)

end PIIDetect
